import Mathlib

/-!
Verification development for the callable-specialization and call-scoping
stage of the studied kernel compiler (`loopy/kernel/function_interface.py`).

The Python source is shallowly embedded below:

* Python dicts become association lists (`List (κ × α)`) with
  insertion-order-preserving overwrite (`dinsert`) and first-match lookup
  (`dlookup`); this matches CPython dict semantics when, as in the source,
  keys are compared by `==`.
* `None`-able values become `Option`; code that can raise becomes
  `Except Err _`, where the `Err` constructors name the error taxonomy of the
  system (LoopyError instances distinguished by meaning) together with the
  builtin Python exceptions the code can raise (KeyError, AttributeError,
  TypeError, IndexError, assertion failure, NotImplementedError).
* numpy dtypes become the inductive `NpDtype` with its `kind` classification
  (`f` float, `i` signed int, `u` unsigned, `c` complex, `b` bool), which is
  all the source inspects.
-/

namespace LoopyFI

/-- Error outcomes of the specialization core.  `LoopyError`s raised by the
source are split by their meaning, following the system's error taxonomy;
the remaining constructors are the Python builtin exceptions the source can
raise, plus `fuelExhausted` for the fuel-instrumented unbounded `while` loop
of the naming pass. -/
inductive Err where
  | arity
  | unsupportedDtype
  | doubleSpecialization
  | keywordRequired
  | missingArgType
  | dimensionMismatch
  | unresolvedFunction
  | keyError
  | attributeError
  | typeError
  | indexError
  | assertionError
  | notImplemented
  | fuelExhausted
deriving DecidableEq

/-- numpy dtype kinds, as tested by the source (`dtype.kind`). -/
inductive NpKind where
  | f | i | u | c | b
deriving DecidableEq

/-- The concrete numpy scalar dtypes exercised by the system. -/
inductive NpDtype where
  | float32 | float64 | int32 | int64 | uint32 | uint64 | complex64 | boolType
deriving DecidableEq

/-- `numpy.dtype.kind` for the embedded dtypes. -/
def NpDtype.kind : NpDtype → NpKind
  | .float32 => .f
  | .float64 => .f
  | .int32 => .i
  | .int64 => .i
  | .uint32 => .u
  | .uint64 => .u
  | .complex64 => .c
  | .boolType => .b

/-- An argument identifier: a positional (possibly negative) integer id or a
keyword (argument-name) id.  Negative ids denote return values, `-1` first. -/
inductive ArgId where
  | pos (i : Int)
  | kw (s : String)
deriving DecidableEq

/-- Python dict lookup (`d[k]` / `d.get(k)`): first binding whose key equals
`k`.  Bindings produced by `dinsert` have unique keys, so this is dict
lookup. -/
def dlookup {κ α : Type} [DecidableEq κ] (k : κ) : List (κ × α) → Option α
  | [] => none
  | p :: rest => if p.1 = k then some p.2 else dlookup k rest

/-- Python dict store (`d[k] = v`): overwrite the value of an existing equal
key in place (CPython keeps the original key and position), else append. -/
def dinsert {κ α : Type} [DecidableEq κ] (k : κ) (v : α) : List (κ × α) → List (κ × α)
  | [] => [(k, v)]
  | p :: rest => if p.1 = k then (p.1, v) :: rest else p :: dinsert k v rest

/-- The keys of an association list (`d.keys()`). -/
def dkeys {κ α : Type} (l : List (κ × α)) : List κ := l.map Prod.fst

/-- Unwrap an `Option`, raising the given error on `none` (models Python
raising on a `None` where a value is required). -/
def otoe {α : Type} : Option α → Err → Except Err α
  | some a, _ => .ok a
  | none, e => .error e

/-- Effectful map over a list in the `Except` monad (a Python list
comprehension / loop whose body can raise). -/
def emapM {α β : Type} (f : α → Except Err β) : List α → Except Err (List β)
  | [] => .ok []
  | a :: l => do
    let b ← f a
    let r ← emapM f l
    .ok (b :: r)

/-- A dtype mapping (`arg_id_to_dtype`): dict from argument id to dtype.
The value is an `Option` because Python stores `None` dtypes in these dicts
(`new_arg_id_to_dtype[arg.name] = arg.dtype` with `arg.dtype` possibly
`None`). -/
abbrev DtypeMap := List (ArgId × Option NpDtype)

/-- Argument descriptor record (`ArgDescriptor`): `mem_scope`, `shape`,
`dim_tags`, each possibly `None`.  `ValueArgDescriptor` has all fields
`None`; dim tags are opaque per-dimension layout objects, embedded as
naturals. -/
structure ArgDescr where
  memScope : Option String
  shape : Option (List Nat)
  dimTags : Option (List Nat)
deriving DecidableEq

/-- `ValueArgDescriptor()`: every field `None`. -/
def valueArgDescriptor : ArgDescr := ⟨none, none, none⟩

/-- `ArrayArgDescriptor.__init__(shape, mem_scope, dim_tags)`: asserts
`isinstance(shape, tuple)` (an AssertionError when a `None` is passed), then
calls `ImmutableRecord.__init__` with `shape=None` — the constructed record
always carries `shape = None` (source line 64). -/
def mkArrayArgDescriptor (shape : Option (List Nat)) (memScope : Option String)
    (dimTags : Option (List Nat)) : Except Err ArgDescr :=
  match shape with
  | none => .error .assertionError
  | some _ => .ok { memScope := memScope, shape := none, dimTags := dimTags }

/-- A descriptor mapping (`arg_id_to_descr`). -/
abbrev DescrMap := List (ArgId × ArgDescr)

/-- The unary transcendental intrinsic names of the base C family. -/
def unaryFnNames : List String :=
  ["abs", "acos", "asin", "atan", "cos", "cosh", "sin", "sinh",
   "tanh", "exp", "log", "log10", "sqrt", "ceil", "floor", "tan"]

/-- The id-range check loop of `c_with_types`
(`for id, dtype in arg_id_to_dtype.items(): if not lo <= id <= hi: raise`).
The code predates Python 3 (`six`, `from __future__ import division`); under
Python 2 ordering a string id compares greater than any integer, so
`id <= hi` is false and the same arity `LoopyError` is raised. -/
def checkScalarIds (lo hi : Int) : DtypeMap → Except Err Unit
  | [] => .ok ()
  | (id, _) :: rest =>
    match id with
    | .kw _ => .error .arity
    | .pos i => if lo ≤ i ∧ i ≤ hi then checkScalarIds lo hi rest else .error .arity

/-- `c_with_types(name, arg_id_to_dtype)` — dtype specialization rules of the
base C target family.  Returns `ok none` when the name is not a C intrinsic
(the Python function returns `None`).

For `max`/`min` the source computes
`np.find_common_type([], [dtype.numpy_dtype for dtype in arg_id_to_dtype])`:
the comprehension iterates the *keys* of the dict, and integer (or string)
ids have no `numpy_dtype` attribute, so a non-empty mapping raises
`AttributeError`; for an empty mapping `find_common_type([], [])` returns
`None` and the subsequent `dtype.kind` access raises `AttributeError` as
well.  The promotion code after that point is unreachable. -/
def c_with_types (name : String) (m : DtypeMap) : Except Err (Option DtypeMap) :=
  if name ∈ unaryFnNames then do
    checkScalarIds (-1) 0 m
    let v ← otoe (dlookup (ArgId.pos 0) m) .keyError
    let d ← otoe v .attributeError
    let dres ←
      match d.kind with
      | .f => (Except.ok d : Except Err NpDtype)
      | .i => .ok NpDtype.float32
      | .u => .ok NpDtype.float32
      | _ => .error .unsupportedDtype
    .ok (some [(ArgId.pos (-1), some dres), (ArgId.pos 0, some dres)])
  else if name ∈ ["max", "min"] then do
    checkScalarIds (-1) 1 m
    .error .attributeError
  else
    .ok none

/-- `opencl_with_types`: delegates to `c_with_types`; the OpenCL-specific
lookup is an unimplemented no-op (`new_arg_id_to_dtype = None`). -/
def opencl_with_types (name : String) (m : DtypeMap) : Except Err (Option DtypeMap) :=
  c_with_types name m

/-- `pyopencl_with_types`: delegates to `opencl_with_types`; the extra branch
is an unimplemented no-op. -/
def pyopencl_with_types (name : String) (m : DtypeMap) : Except Err (Option DtypeMap) :=
  opencl_with_types name m

/-- `cuda_with_types`: delegates to `c_with_types`; the extra branch is an
unimplemented no-op. -/
def cuda_with_types (name : String) (m : DtypeMap) : Except Err (Option DtypeMap) :=
  c_with_types name m

/-- A kernel argument declaration: name, dtype, shape, dim tags (each of the
last three possibly unset). -/
structure KArg where
  name : String
  dtype : Option NpDtype
  shape : Option (List Nat)
  dimTags : Option (List Nat)
deriving DecidableEq

/-- The slice of a (sub)kernel program the specialization core consumes:
its name, ordered argument declarations, and the `get_written_variables()` /
`get_read_variables()` sets (embedded as lists of names). -/
structure Kernel where
  name : String
  args : List KArg
  writtenVars : List String
  readVars : List String
deriving DecidableEq

/-- `kernel.arg_dict[name]`: kernel arguments keyed by their name. -/
def argDict (k : Kernel) (name : String) : Option KArg :=
  k.args.find? (fun a => a.name == name)

/-- Loop body of `get_kw_pos_association`: written arguments are numbered
`-1, -2, …`, read arguments `0, 1, …`, both in declaration order; the two
dicts are built by insertion. -/
def gkpaAux : List KArg → List String → Int → Int →
    List (String × Int) → List (Int × String) → List (String × Int) × List (Int × String)
  | [], _, _, _, ktp, ptk => (ktp, ptk)
  | a :: rest, w, rc, wc, ktp, ptk =>
    if a.name ∈ w then
      gkpaAux rest w rc (wc - 1) (dinsert a.name wc ktp) (dinsert wc a.name ptk)
    else
      gkpaAux rest w (rc + 1) wc (dinsert a.name rc ktp) (dinsert rc a.name ptk)

/-- `get_kw_pos_association(kernel)`: the keyword↔position bijection
`(kw_to_pos, pos_to_kw)` derived from the kernel's argument list and written
variables. -/
def get_kw_pos_association (k : Kernel) : List (String × Int) × List (Int × String) :=
  gkpaAux k.args k.writtenVars 0 (-1) [] []

/-- Loop body of the `new_arg_id_to_dtype` reconstruction in the subkernel
branch of `InKernelCallable.with_types` (source lines 352-362): every
argument's dtype is stored under its name and then under its positional id
(reads `0, 1, …`; writes `-1, -2, …`, declaration order). -/
def buildAux : List KArg → List String → Int → Int → DtypeMap → DtypeMap
  | [], _, _, _, acc => acc
  | a :: rest, w, rc, wc, acc =>
    if a.name ∈ w then
      buildAux rest w rc (wc - 1)
        (dinsert (ArgId.pos wc) a.dtype (dinsert (ArgId.kw a.name) a.dtype acc))
    else
      buildAux rest w (rc + 1) wc
        (dinsert (ArgId.pos rc) a.dtype (dinsert (ArgId.kw a.name) a.dtype acc))

/-- The completed `new_arg_id_to_dtype` built from a fully-inferred
subkernel's arguments and written variables. -/
def buildMap (args : List KArg) (w : List String) : DtypeMap :=
  buildAux args w 0 (-1) []

/-- The read (input) arguments of an argument list, in declaration order. -/
def readArgs (args : List KArg) (w : List String) : List KArg :=
  args.filter (fun a => !(decide (a.name ∈ w)))

/-- The written (output) arguments of an argument list, in declaration
order. -/
def writtenArgs (args : List KArg) (w : List String) : List KArg :=
  args.filter (fun a => decide (a.name ∈ w))

/-- `InKernelCallable`: name, optional subkernel, optional dtype and
descriptor mappings (an `ImmutableRecord`; specialization copies it). -/
structure Callable where
  name : String
  subkernel : Option Kernel
  arg_id_to_dtype : Option DtypeMap
  arg_id_to_descr : Option DescrMap
deriving DecidableEq

/-- Python `dict.__eq__`: two dicts are equal iff they bind the same keys to
the same values (order-insensitive).  Checked over the union of both key
lists; keys in neither dict look up to `none` on both sides. -/
def dictEq {κ α : Type} [DecidableEq κ] [DecidableEq α] (a b : List (κ × α)) : Bool :=
  (dkeys a ++ dkeys b).all (fun k => decide (dlookup k a = dlookup k b))

/-- Equality of the optional dict fields: `None == None` is true, a dict
never equals `None`, and two dicts compare with `dictEq`. -/
def optDictEq {κ α : Type} [DecidableEq κ] [DecidableEq α] :
    Option (List (κ × α)) → Option (List (κ × α)) → Bool
  | none, none => true
  | some a, some b => dictEq a b
  | _, _ => false

/-- `InKernelCallable.__eq__`: structural equality over
`(name, arg_id_to_descr, arg_id_to_dtype, subkernel)`, with the two mapping
fields compared as dicts.  `__hash__` is `hash((name, subkernel))`, which is
consistent with this equality, so dict membership of callables reduces to a
scan by this predicate. -/
def callableEq (c d : Callable) : Bool :=
  decide (c.name = d.name) && decide (c.subkernel = d.subkernel) &&
    optDictEq c.arg_id_to_dtype d.arg_id_to_dtype &&
    optDictEq c.arg_id_to_descr d.arg_id_to_descr

/-- The target families of the dispatch chain in
`InKernelCallable.with_types` (`CTarget`, `OpenCLTarget`, `PyOpenCLTarget`,
`CudaTarget`, anything else). -/
inductive TargetKind where
  | c | opencl | pyopencl | cuda | other
deriving DecidableEq

/-- A code-generation target: its family and the intrinsic names its AST
builder recognizes (`target.get_device_ast_builder().function_identifiers()`). -/
structure Target where
  kind : TargetKind
  identifiers : List String

/-- The argument-overlay loop of the subkernel branch of
`InKernelCallable.with_types` (source lines 325-342): each subkernel argument
takes a supplied dtype by its name, else by its position via `kw_to_pos`;
an unknown dtype for a read variable raises the missing-argument-type
`LoopyError`. -/
def overlayArgs (k : Kernel) (m : DtypeMap) (ktp : List (String × Int)) :
    Except Err (List KArg) :=
  emapM
    (fun arg =>
      match dlookup (ArgId.kw arg.name) m with
      | some v => .ok { arg with dtype := v }
      | none =>
        match dlookup arg.name ktp with
        | none => .error .keyError
        | some pos =>
          match dlookup (ArgId.pos pos) m with
          | some v => .ok { arg with dtype := v }
          | none =>
            if k.readVars.contains arg.name then .error .missingArgType
            else .ok arg)
    k.args

/-- Subkernel branch of `InKernelCallable.with_types` (source lines 321-369).
`infer` is the external whole-program type-inference routine
(`infer_unknown_types(…, expect_completion=True)`), passed in as a
collaborator. -/
def subkernelWithTypes (C : Callable) (k : Kernel) (m : DtypeMap)
    (infer : Kernel → Except Err Kernel) : Except Err Callable := do
  let ktpPtk := get_kw_pos_association k
  let newArgs ← overlayArgs k m ktpPtk.1
  let specialized ← infer { k with args := newArgs }
  .ok { C with subkernel := some specialized,
               arg_id_to_dtype := some (buildMap specialized.args specialized.writtenVars) }

/-- Scalar-dispatch part of `InKernelCallable.with_types` (source lines
285-319) followed by the subkernel attempt: if the callable's name is a
target intrinsic, dispatch on the target family; a non-`None` scalar result
is returned as a specialized copy; otherwise fall through to the subkernel
branch or fail with the unresolved-function `LoopyError`. -/
def withTypesDispatch (C : Callable) (m : DtypeMap) (t : Target)
    (infer : Kernel → Except Err Kernel) : Except Err Callable := do
  let scalarResult ←
    if C.name ∈ t.identifiers then
      match t.kind with
      | .c => c_with_types C.name m
      | .opencl => opencl_with_types C.name m
      | .pyopencl => pyopencl_with_types C.name m
      | .cuda => cuda_with_types C.name m
      | .other => .error .notImplemented
    else
      (.ok none : Except Err (Option DtypeMap))
  match scalarResult with
  | some newMap => .ok { C with arg_id_to_dtype := some newMap }
  | none =>
    match C.subkernel with
    | none => .error .unresolvedFunction
    | some k => subkernelWithTypes C k m infer

/-- `InKernelCallable.with_types(arg_id_to_dtype, target)` (source lines
258-369).  A truthy (non-`None`, non-empty) existing `arg_id_to_dtype` must
be re-supplied identically (returning an unchanged copy) or the
double-specialization `LoopyError` is raised; otherwise specialization
proceeds. -/
def withTypes (C : Callable) (m : DtypeMap) (t : Target)
    (infer : Kernel → Except Err Kernel) : Except Err Callable :=
  match C.arg_id_to_dtype with
  | some existing =>
    if existing.isEmpty then withTypesDispatch C m t infer
    else if dictEq existing m then .ok C
    else .error .doubleSpecialization
  | none => withTypesDispatch C m t infer

/-- Python list read `l[i]` with negative-index wraparound; out of range
raises `IndexError`. -/
def pyGet (l : List KArg) (i : Int) : Except Err KArg :=
  let j : Int := if 0 ≤ i then i else (l.length : Int) + i
  if h : 0 ≤ j ∧ j < (l.length : Int) then
    .ok (l.get ⟨j.toNat, by omega⟩)
  else
    .error .indexError

/-- Python list write `l[i] = v` with negative-index wraparound; out of
range raises `IndexError`. -/
def pySet (l : List KArg) (i : Int) (v : KArg) : Except Err (List KArg) :=
  let j : Int := if 0 ≤ i then i else (l.length : Int) + i
  if 0 ≤ j ∧ j < (l.length : Int) then
    .ok (l.set j.toNat v)
  else
    .error .indexError

/-- The overlay loop of the subkernel branch of
`InKernelCallable.with_descrs` (source lines 404-413): each supplied id is
normalized to a position via `kw_to_pos` (a keyword id missing from the
bijection raises `KeyError`), and
`new_args[id] = new_args[id].copy(shape=descr.shape, dim_tags=descr.dim_tags)`
overwrites the argument at that (possibly negative) index. -/
def overlayDescrs (ktp : List (String × Int)) :
    List KArg → DescrMap → Except Err (List KArg)
  | newArgs, [] => .ok newArgs
  | newArgs, (id, d) :: rest => do
    let pos ←
      match id with
      | .kw name => otoe (dlookup name ktp) .keyError
      | .pos i => .ok i
    let cur ← pyGet newArgs pos
    let args1 ← pySet newArgs pos { cur with shape := d.shape, dimTags := d.dimTags }
    overlayDescrs ktp args1 rest

/-- `InKernelCallable.with_descrs(arg_id_to_descr)` (source lines 371-418),
in state-passing form: the second component of the result is the final state
of the *caller-supplied* dict.  The scalar branch executes
`arg_id_to_descr[-1] = ValueArgDescriptor()`, an in-place mutation of the
caller's dict, before storing that same dict on the returned copy. -/
def with_descrs (C : Callable) (m : DescrMap) : Except Err Callable × DescrMap :=
  match C.subkernel with
  | none =>
    let mMutated := dinsert (ArgId.pos (-1)) valueArgDescriptor m
    (.ok { C with arg_id_to_descr := some mMutated }, mMutated)
  | some k =>
    let ktpPtk := get_kw_pos_association k
    match overlayDescrs ktpPtk.1 k.args m with
    | .error e => (.error e, m)
    | .ok newArgs =>
      (.ok { C with subkernel := some { k with args := newArgs },
                    arg_id_to_descr := some m }, m)

/-- The dimension-check loop of `CallableKernel.with_descriptors` (source
lines 570-575):
`len(arg_descr.dim_tags) != len(self.subkernel.arg_dict[id].shape)`.
Evaluation order follows Python: the left `len` first (`TypeError` on a
`None` `dim_tags`), then `arg_dict[id]` (`KeyError` for an integer id, since
`arg_dict` is keyed by argument *names*, or for an unknown name), then the
right `len` (`TypeError` on a `None` shape); a genuine mismatch raises the
dimension-mismatch `LoopyError`. -/
def checkDims (k : Kernel) : DescrMap → Except Err Unit
  | [] => .ok ()
  | (id, d) :: rest =>
    match d.dimTags with
    | none => .error .typeError
    | some dt =>
      match id with
      | .pos _ => .error .keyError
      | .kw name =>
        match argDict k name with
        | none => .error .keyError
        | some arg =>
          match arg.shape with
          | none => .error .typeError
          | some sh =>
            if dt.length ≠ sh.length then .error .dimensionMismatch
            else checkDims k rest

/-- The argument-rebuild loop of `CallableKernel.with_descriptors` (source
lines 577-583): for an argument whose name was supplied the code runs
`new_args.copy(arg.copy(dim_tags=…))` — `list.copy()` takes no arguments, a
`TypeError`; other arguments are appended as copies. -/
def rebuildArgs (m : DescrMap) : List KArg → Except Err (List KArg)
  | [] => .ok []
  | a :: rest =>
    if (dlookup (ArgId.kw a.name) m).isSome then .error .typeError
    else do
      let r ← rebuildArgs m rest
      .ok (a :: r)

/-- The output-descriptor loop of `CallableKernel.with_descriptors` (source
lines 587-590): for every final argument,
`ArrayArgDescriptor(arg.dim_tags, "GLOBAL")` (positionally: shape is the
dim tags, memory scope `"GLOBAL"`, dim tags `None`). -/
def mkDescrOut : List KArg → Except Err DescrMap
  | [] => .ok []
  | a :: rest => do
    let d ← mkArrayArgDescriptor a.dimTags (some "GLOBAL") none
    let r ← mkDescrOut rest
    .ok ((ArgId.kw a.name, d) :: r)

/-- `CallableKernel.with_descriptors(arg_id_to_descr)` (source lines
569-592), as a function of the wrapped subkernel: check dimensions, rebuild
the argument list, and return the updated subkernel together with the
completed descriptor mapping. -/
def with_descriptors (k : Kernel) (m : DescrMap) : Except Err (Kernel × DescrMap) := do
  checkDims k m
  let newArgs ← rebuildArgs m k.args
  let sk := { k with args := newArgs }
  let out ← mkDescrOut sk.args
  .ok (sk, out)

/-- A symbolic expression appearing as a call parameter or assignee. -/
inductive PExpr where
  | var (s : String)
  | num (n : Int)
deriving DecidableEq

/-- The slice of a `CallInstruction` consumed by `emit_call`: positional
parameters, keyword parameters (empty unless the expression is a
`CallWithKwargs`), and the assignee expressions. -/
structure CallInsn where
  parameters : List PExpr
  kw_parameters : List (String × PExpr)
  assignees : List PExpr
deriving DecidableEq

/-- `par_dtypes = [self.arg_id_to_dtype[i] for i, _ in enumerate(parameters)]`
(source line 473), paired with the positional parameters they translate. -/
def emitParPairs (m : DtypeMap) (pars : List PExpr) :
    Except Err (List (PExpr × Option NpDtype)) :=
  emapM
    (fun (p : Nat × PExpr) => do
      let d ← otoe (dlookup (ArgId.pos (p.1 : Int)) m) .keyError
      .ok (p.2, d))
    pars.enum

/-- The keyword-parameter loop of `emit_call` (source lines 475-477): for
each position `i` from `len(parameters)` up, append
`kw_parameters[pos_to_kw[i]]` with dtype `arg_id_to_dtype[pos_to_kw[i]]`. -/
def emitKwPairs (m : DtypeMap) (ptk : List (Int × String)) (parLen : Nat)
    (kwpars : List (String × PExpr)) : Except Err (List (PExpr × Option NpDtype)) :=
  emapM
    (fun (j : Nat) => do
      let kwName ← otoe (dlookup ((parLen : Int) + (j : Int)) ptk) .keyError
      let e ← otoe (dlookup kwName kwpars) .keyError
      let d ← otoe (dlookup (ArgId.kw kwName) m) .keyError
      .ok (e, d))
    (List.range kwpars.length)

/-- The assignee tail of `emit_call` (source lines 480-482): assignees are
appended after all inputs, the `i`-th with dtype `arg_id_to_dtype[-i-1]`. -/
def emitAsgPairs (m : DtypeMap) (asgs : List PExpr) :
    Except Err (List (PExpr × Option NpDtype)) :=
  emapM
    (fun (p : Nat × PExpr) => do
      let d ← otoe (dlookup (ArgId.pos (-(p.1 : Int) - 1)) m) .keyError
      .ok (p.2, d))
    asgs.enum

/-- `InKernelCallable.emit_call(insn, target, expression_to_code_mapper)`
(source lines 458-495).  Produces the target-visible callee name
(`get_target_specific_name`: the subkernel's name; a missing subkernel makes
`get_kw_pos_association(None)` raise `AttributeError` first) and the ordered
`(parameter, dtype)` pairs handed one by one to the expression translator;
translation itself is the external collaborator and is not modeled.  A
`None` `arg_id_to_dtype` raises `TypeError` on the first subscript. -/
def emit_call (C : Callable) (insn : CallInsn) :
    Except Err (String × List (PExpr × Option NpDtype)) := do
  let m ← otoe C.arg_id_to_dtype .typeError
  let parPairs ← emitParPairs m insn.parameters
  let k ← otoe C.subkernel .attributeError
  let kwPairs ← emitKwPairs m (get_kw_pos_association k).2 insn.parameters.length
    insn.kw_parameters
  let asgPairs ← emitAsgPairs m insn.assignees
  .ok (k.name, parPairs ++ kwPairs ++ asgPairs)

/-- The numeric value of a digit string (`int(num)`; leading zeros
allowed). -/
def natOfDigits (l : List Char) : Nat :=
  l.foldl (fun acc c => acc * 10 + (c.toNat - 48)) 0

/-- The no-regex-match fallback of `next_indexed_name`: append `"0"` after a
trailing `'_'`, else append `"_0"`; `name[-1]` on an empty string raises
`IndexError`. -/
def fallbackIndexedName (name : String) : Except Err String :=
  match name.data.getLast? with
  | none => .error .indexError
  | some c => if c = '_' then .ok (name ++ "0") else .ok (name ++ "_0")

/-- `next_indexed_name(name)` (source lines 615-627).  The pattern
`^(?P<alpha>\S+?)_(?P<num>\d+?)$` matches exactly when the maximal digit
suffix is non-empty, is preceded by `'_'`, and the part before that `'_'` is
non-empty and whitespace-free (digits cannot contain `'_'`, so the anchored
lazy groups admit no other split); on a match the digits are incremented,
otherwise the fallback applies. -/
def next_indexed_name (name : String) : Except Err String :=
  let rev := name.data.reverse
  let digitsRev := rev.takeWhile (fun c => c.isDigit)
  let restRev := rev.dropWhile (fun c => c.isDigit)
  match digitsRev, restRev with
  | _ :: _, '_' :: a :: alphaRest =>
    if (a :: alphaRest).all (fun c => !c.isWhitespace) then
      .ok (String.mk ((a :: alphaRest).reverse ++
        '_' :: Nat.toDigits 10 (natOfDigits digitsRev.reverse + 1)))
    else
      fallbackIndexedName name
  | _, _ => fallbackIndexedName name

/-- The `while unique_name in scoped_names_to_functions` loop of
`register_pymbolic_calls_to_knl_callables`, instrumented with fuel (the
Python loop is unbounded). -/
def uniqLoop : Nat → List String → String → Except Err String
  | 0, _, _ => .error .fuelExhausted
  | fuel + 1, taken, cand =>
    if cand ∈ taken then
      match next_indexed_name cand with
      | .error e => .error e
      | .ok nxt => uniqLoop fuel taken nxt
    else .ok cand

/-- A pymbolic call expression as the scoping pass sees it: the callee name
(`pymbolic_call.function.name`) plus its argument expressions, which make
distinct call sites distinct dict keys. -/
structure PCall where
  functionName : String
  params : List PExpr
deriving DecidableEq

/-- The mutable state of `register_pymbolic_calls_to_knl_callables`:
`scoped_names_to_functions` (seeded with `kernel.scoped_functions.copy()`),
`scoped_functions_to_names` (initially empty), and
`pymbolic_calls_to_new_names`. -/
structure RegState where
  ntf : List (String × Callable)
  ftn : List (Callable × String)
  ctn : List (PCall × String)
deriving DecidableEq

/-- Lookup in `scoped_functions_to_names`, a dict keyed by callables:
first entry whose key is `__eq__`-equal to `c` (`__hash__` agrees with
`__eq__` on `(name, subkernel)`, so hashing never separates equal keys). -/
def findName (ftn : List (Callable × String)) (c : Callable) : Option String :=
  (ftn.find? (fun p => callableEq p.1 c)).map Prod.snd

/-- Store into `scoped_functions_to_names`: overwrite the value of an
`__eq__`-equal key in place, else append. -/
def cinsert (c : Callable) (n : String) : List (Callable × String) → List (Callable × String)
  | [] => [(c, n)]
  | p :: rest => if callableEq p.1 c then (p.1, n) :: rest else p :: cinsert c n rest

/-- The subkernel renaming before registration (source lines 689-695): a
callable wrapping a subkernel is re-registered with the subkernel renamed to
the assigned unique name, so the emitted callee signature matches the call
site. -/
def renameForReg (c : Callable) (n : String) : Callable :=
  match c.subkernel with
  | some k => { c with subkernel := some { k with name := n } }
  | none => c

/-- The main loop of `register_pymbolic_calls_to_knl_callables` (source
lines 677-700): for each `(pymbolic_call, in_knl_callable)` pair, reuse the
name of an `__eq__`-equal callable already in
`scoped_functions_to_names`, else synthesize a fresh name with
`next_indexed_name` starting from the call's function name, rename a wrapped
subkernel to it, and record the new name in both dicts.  The final
`pymbolic_calls_to_new_names[pymbolic_call] = scoped_functions_to_names[in_knl_callable]`
reads back the value just stored, i.e. the synthesized name. -/
def registerAux (fuel : Nat) : List (PCall × Callable) → RegState → Except Err RegState
  | [], s => .ok s
  | (pc, c) :: rest, s =>
    match findName s.ftn c with
    | some n => registerAux fuel rest ⟨s.ntf, s.ftn, s.ctn ++ [(pc, n)]⟩
    | none =>
      match next_indexed_name pc.functionName with
      | .error e => .error e
      | .ok cand =>
        match uniqLoop fuel (dkeys s.ntf) cand with
        | .error e => .error e
        | .ok n =>
          let crenamed := renameForReg c n
          registerAux fuel rest
            ⟨dinsert n crenamed s.ntf, cinsert crenamed n s.ftn, s.ctn ++ [(pc, n)]⟩

/-- The naming part of `register_pymbolic_calls_to_knl_callables(kernel,
pymbolic_calls_to_knl_callables)`: starting from the kernel's existing
`scoped_functions` registry, returns the new registry and the name assigned
to every call site.  (The subsequent instruction rewrite, source lines
702-716, substitutes these names into the instruction expressions and is not
needed by the naming claims.) -/
def registerCalls (fuel : Nat) (registry : List (String × Callable))
    (calls : List (PCall × Callable)) :
    Except Err (List (String × Callable) × List (PCall × String)) :=
  match registerAux fuel calls ⟨registry, [], []⟩ with
  | .ok s => .ok (s.ntf, s.ctn)
  | .error e => .error e

/-! ## Association-list lemmas -/

theorem dlookup_append_of_some {κ α : Type} [DecidableEq κ] {k : κ} {l r : List (κ × α)}
    {v : α} (h : dlookup k l = some v) : dlookup k (l ++ r) = some v := by
  induction l with
  | nil => simp [dlookup] at h
  | cons p rest ih =>
    simp only [dlookup] at h ⊢
    by_cases hp : p.1 = k
    · simpa [hp] using h
    · simp only [hp, if_false] at h ⊢
      exact ih h

theorem dlookup_append_of_none {κ α : Type} [DecidableEq κ] {k : κ} {l r : List (κ × α)}
    (h : dlookup k l = none) : dlookup k (l ++ r) = dlookup k r := by
  induction l with
  | nil => simp
  | cons p rest ih =>
    simp only [dlookup] at h ⊢
    by_cases hp : p.1 = k
    · simp [hp] at h
    · simp only [hp, if_false] at h ⊢
      exact ih h

theorem dlookup_eq_none_iff {κ α : Type} [DecidableEq κ] {k : κ} {l : List (κ × α)} :
    dlookup k l = none ↔ k ∉ dkeys l := by
  induction l with
  | nil => simp [dlookup, dkeys]
  | cons p rest ih =>
    simp only [dlookup, dkeys, List.map_cons, List.mem_cons]
    by_cases hp : p.1 = k
    · simp [hp]
    · simp only [hp, if_false]
      rw [ih]
      simp [dkeys, Ne.symm hp]

theorem mem_dkeys_of_dlookup {κ α : Type} [DecidableEq κ] {k : κ} {l : List (κ × α)}
    {v : α} (h : dlookup k l = some v) : k ∈ dkeys l := by
  by_contra hk
  rw [← dlookup_eq_none_iff] at hk
  rw [h] at hk
  exact Option.noConfusion hk

theorem dinsert_of_not_mem {κ α : Type} [DecidableEq κ] {k : κ} {l : List (κ × α)}
    (v : α) (h : k ∉ dkeys l) : dinsert k v l = l ++ [(k, v)] := by
  induction l with
  | nil => simp [dinsert]
  | cons p rest ih =>
    simp only [dkeys, List.map_cons, List.mem_cons] at h
    push_neg at h
    simp only [dinsert, Ne.symm h.1, if_false, List.cons_append]
    rw [ih h.2]

theorem dkeys_append {κ α : Type} (l r : List (κ × α)) :
    dkeys (l ++ r) = dkeys l ++ dkeys r :=
  List.map_append _ _ _

/-! ## Dict equality lemmas -/

theorem dictEq_iff_forall {κ α : Type} [DecidableEq κ] [DecidableEq α]
    {a b : List (κ × α)} :
    dictEq a b = true ↔ ∀ k, dlookup k a = dlookup k b := by
  constructor
  · intro h k
    rw [dictEq, List.all_eq_true] at h
    by_cases ha : k ∈ dkeys a
    · exact of_decide_eq_true (h k (by simp [ha]))
    · by_cases hb : k ∈ dkeys b
      · exact of_decide_eq_true (h k (by simp [hb]))
      · rw [dlookup_eq_none_iff.2 ha, dlookup_eq_none_iff.2 hb]
  · intro h
    rw [dictEq, List.all_eq_true]
    intro k _
    exact decide_eq_true (h k)

theorem dictEq_refl {κ α : Type} [DecidableEq κ] [DecidableEq α] (a : List (κ × α)) :
    dictEq a a = true :=
  dictEq_iff_forall.2 (fun _ => rfl)

theorem dictEq_symm {κ α : Type} [DecidableEq κ] [DecidableEq α] {a b : List (κ × α)}
    (h : dictEq a b = true) : dictEq b a = true :=
  dictEq_iff_forall.2 (fun k => (dictEq_iff_forall.1 h k).symm)

theorem dictEq_trans {κ α : Type} [DecidableEq κ] [DecidableEq α]
    {a b c : List (κ × α)} (hab : dictEq a b = true) (hbc : dictEq b c = true) :
    dictEq a c = true :=
  dictEq_iff_forall.2 (fun k => (dictEq_iff_forall.1 hab k).trans (dictEq_iff_forall.1 hbc k))

theorem optDictEq_refl {κ α : Type} [DecidableEq κ] [DecidableEq α]
    (a : Option (List (κ × α))) : optDictEq a a = true := by
  cases a with
  | none => rfl
  | some l => exact dictEq_refl l

theorem optDictEq_symm {κ α : Type} [DecidableEq κ] [DecidableEq α]
    {a b : Option (List (κ × α))} (h : optDictEq a b = true) : optDictEq b a = true := by
  cases a <;> cases b <;> simp_all [optDictEq]
  exact dictEq_symm h

theorem optDictEq_trans {κ α : Type} [DecidableEq κ] [DecidableEq α]
    {a b c : Option (List (κ × α))} (hab : optDictEq a b = true)
    (hbc : optDictEq b c = true) : optDictEq a c = true := by
  cases a <;> cases b <;> cases c <;> simp_all [optDictEq]
  exact dictEq_trans hab hbc

/-! ## Callable equality lemmas -/

theorem callableEq_name {c d : Callable} (h : callableEq c d = true) : c.name = d.name := by
  simp only [callableEq, Bool.and_eq_true, decide_eq_true_eq] at h
  exact h.1.1.1

theorem callableEq_subkernel {c d : Callable} (h : callableEq c d = true) :
    c.subkernel = d.subkernel := by
  simp only [callableEq, Bool.and_eq_true, decide_eq_true_eq] at h
  exact h.1.1.2

theorem callableEq_dtype {c d : Callable} (h : callableEq c d = true) :
    optDictEq c.arg_id_to_dtype d.arg_id_to_dtype = true := by
  simp only [callableEq, Bool.and_eq_true, decide_eq_true_eq] at h
  exact h.1.2

theorem callableEq_refl (c : Callable) : callableEq c c = true := by
  simp [callableEq, optDictEq_refl]

theorem callableEq_symm {c d : Callable} (h : callableEq c d = true) :
    callableEq d c = true := by
  simp only [callableEq, Bool.and_eq_true, decide_eq_true_eq] at h ⊢
  exact ⟨⟨⟨h.1.1.1.symm, h.1.1.2.symm⟩, optDictEq_symm h.1.2⟩, optDictEq_symm h.2⟩

theorem callableEq_trans {c d e : Callable} (hcd : callableEq c d = true)
    (hde : callableEq d e = true) : callableEq c e = true := by
  simp only [callableEq, Bool.and_eq_true, decide_eq_true_eq] at hcd hde ⊢
  exact ⟨⟨⟨hcd.1.1.1.trans hde.1.1.1, hcd.1.1.2.trans hde.1.1.2⟩,
    optDictEq_trans hcd.1.2 hde.1.2⟩, optDictEq_trans hcd.2 hde.2⟩

theorem callableEq_false_symm {c d : Callable} (h : callableEq c d = false) :
    callableEq d c = false := by
  by_contra hne
  have : callableEq d c = true := by
    cases hdc : callableEq d c with
    | true => rfl
    | false => exact absurd hdc hne
  rw [callableEq_symm this] at h
  exact Bool.noConfusion h

/-! ## Scalar intrinsic arity-check lemmas -/

/-- Decidable form of "every supplied id is an integer within `[lo, hi]`". -/
def idsWithin (lo hi : Int) (m : DtypeMap) : Bool :=
  m.all (fun p =>
    match p.1 with
    | .pos i => decide (lo ≤ i ∧ i ≤ hi)
    | .kw _ => false)

theorem checkScalarIds_ok {lo hi : Int} {m : DtypeMap}
    (h : idsWithin lo hi m = true) : checkScalarIds lo hi m = .ok () := by
  induction m with
  | nil => rfl
  | cons p rest ih =>
    obtain ⟨id, v⟩ := p
    cases id with
    | pos i =>
      rw [idsWithin, List.all_cons, Bool.and_eq_true] at h
      have hr : lo ≤ i ∧ i ≤ hi := of_decide_eq_true h.1
      simp only [checkScalarIds, hr, if_true]
      exact ih h.2
    | kw s =>
      rw [idsWithin, List.all_cons] at h
      simp at h

theorem checkScalarIds_arity {lo hi : Int} {m : DtypeMap}
    (h : idsWithin lo hi m = false) : checkScalarIds lo hi m = .error .arity := by
  induction m with
  | nil => simp [idsWithin] at h
  | cons p rest ih =>
    obtain ⟨id, v⟩ := p
    cases id with
    | pos i =>
      rw [idsWithin, List.all_cons] at h
      by_cases hr : lo ≤ i ∧ i ≤ hi
      · simp only [checkScalarIds, hr, if_true]
        apply ih
        rw [idsWithin]
        rcases Bool.and_eq_false_iff.mp h with hl | hrest
        · exact absurd hl (by simp [hr])
        · exact hrest
      · simp [checkScalarIds, hr]
    | kw s => rfl

theorem uniqLoop_fresh : ∀ (fuel : Nat) (taken : List String) (cand n : String),
    uniqLoop fuel taken cand = .ok n → n ∉ taken := by
  intro fuel
  induction fuel with
  | zero =>
    intro taken cand n h
    exact Except.noConfusion h
  | succ f ih =>
    intro taken cand n h
    rw [uniqLoop] at h
    by_cases hc : cand ∈ taken
    · rw [if_pos hc] at h
      cases hnx : next_indexed_name cand with
      | error e => rw [hnx] at h; exact Except.noConfusion h
      | ok nxt =>
        rw [hnx] at h
        exact ih taken nxt n h
    · rw [if_neg hc] at h
      cases h
      exact hc

/-! ## C3: min/max type specialization -/

/-- C3: for the binary intrinsics, the claim says
`with_types("max", {0: int32, 1: float32})` yields
`{-1: float32, 0: int32, 1: float32}`.  The code instead iterates the *keys*
of the dtype dict when collecting dtypes for promotion
(`[dtype.numpy_dtype for dtype in arg_id_to_dtype]`, source line 123), so
the call raises `AttributeError` — the promotion result is never produced
(and the same holds for `min`). -/
theorem C3_min_max_promotion_crashes :
    c_with_types "max" [(ArgId.pos 0, some NpDtype.int32), (ArgId.pos 1, some NpDtype.float32)]
      = .error .attributeError ∧
    c_with_types "min" [(ArgId.pos 0, some NpDtype.int32), (ArgId.pos 1, some NpDtype.float32)]
      = .error .attributeError :=
  ⟨rfl, rfl⟩

/-! ## C4: unary transcendental type specialization -/

/-- C4: for every unary transcendental intrinsic, when every supplied id is
an integer in `{-1, 0}` and a dtype is supplied at id `0`: a floating input
passes through into `{-1: d, 0: d}`, an integer/unsigned input is coerced to
`float32` in both slots, and any other kind fails with the
unsupported-dtype error; any supplied id outside `{-1, 0}` fails with the
arity error. -/
theorem C4_unary_with_types :
    ∀ name, name ∈ unaryFnNames → ∀ (m : DtypeMap) (d : NpDtype),
    ((idsWithin (-1) 0 m = true → dlookup (ArgId.pos 0) m = some (some d) →
      ((d.kind = .f →
          c_with_types name m
            = .ok (some [(ArgId.pos (-1), some d), (ArgId.pos 0, some d)])) ∧
       (d.kind = .i ∨ d.kind = .u →
          c_with_types name m
            = .ok (some [(ArgId.pos (-1), some NpDtype.float32),
                         (ArgId.pos 0, some NpDtype.float32)])) ∧
       ((d.kind = .c ∨ d.kind = .b) →
          c_with_types name m = .error .unsupportedDtype))) ∧
     (idsWithin (-1) 0 m = false → c_with_types name m = .error .arity)) := by
  intro name hname m d
  constructor
  · intro hids hlook
    have hcs := checkScalarIds_ok hids
    refine ⟨?_, ?_, ?_⟩
    · intro hf
      simp [c_with_types, hname, hcs, hlook, otoe, hf, Bind.bind, Except.bind]
    · intro hiu
      rcases hiu with hkind | hkind <;>
        simp [c_with_types, hname, hcs, hlook, otoe, hkind, Bind.bind, Except.bind]
    · intro hcb
      rcases hcb with hkind | hkind <;>
        simp [c_with_types, hname, hcs, hlook, otoe, hkind, Bind.bind, Except.bind]
  · intro hids
    have hcs := checkScalarIds_arity hids
    simp [c_with_types, hname, hcs, Bind.bind, Except.bind]

/-- Witness for C4 at the spec's own test vectors: `sqrt` on `int32` is
coerced to `float32`, `sqrt` on `float64` passes through, and a second
positional argument to `sqrt` is an arity error. -/
theorem C4_unary_with_types_witness :
    c_with_types "sqrt" [(ArgId.pos 0, some NpDtype.int32)]
      = .ok (some [(ArgId.pos (-1), some NpDtype.float32),
                   (ArgId.pos 0, some NpDtype.float32)]) ∧
    c_with_types "sqrt" [(ArgId.pos 0, some NpDtype.float64)]
      = .ok (some [(ArgId.pos (-1), some NpDtype.float64),
                   (ArgId.pos 0, some NpDtype.float64)]) ∧
    c_with_types "sqrt" [(ArgId.pos 0, some NpDtype.float32), (ArgId.pos 1, some NpDtype.float32)]
      = .error .arity :=
  ⟨((C4_unary_with_types "sqrt" (by decide) [(ArgId.pos 0, some NpDtype.int32)]
      NpDtype.int32).1 (by decide) rfl).2.1 (Or.inl rfl),
   ((C4_unary_with_types "sqrt" (by decide) [(ArgId.pos 0, some NpDtype.float64)]
      NpDtype.float64).1 (by decide) rfl).1 rfl,
   (C4_unary_with_types "sqrt" (by decide)
      [(ArgId.pos 0, some NpDtype.float32), (ArgId.pos 1, some NpDtype.float32)]
      NpDtype.float32).2 (by decide)⟩

/-! ## C5: re-specialization of an already-specialized callable -/

/-- C5: `with_types` on a callable already carrying a (non-empty) dtype
mapping returns a structurally equal copy when the supplied mapping equals
the existing one, and raises the double-specialization error when it
differs. -/
theorem C5_with_types_respecialization :
    ∀ (C : Callable) (m : DtypeMap) (t : Target) (infer : Kernel → Except Err Kernel)
      (existing : DtypeMap),
    C.arg_id_to_dtype = some existing → existing ≠ [] →
    ((dictEq existing m = true →
        ∃ Cr, withTypes C m t infer = .ok Cr ∧ callableEq Cr C = true) ∧
     (dictEq existing m = false →
        withTypes C m t infer = .error .doubleSpecialization)) := by
  intro C m t infer existing hfield hne
  have hemp : existing.isEmpty = false := by
    cases existing with
    | nil => exact absurd rfl hne
    | cons a l => rfl
  constructor
  · intro hEq
    refine ⟨C, ?_, callableEq_refl C⟩
    simp [withTypes, hfield, hemp, hEq]
  · intro hNe
    simp [withTypes, hfield, hemp, hNe]

/-- Concrete callable for the C5 witness: `sin` specialized at `float32`. -/
def c5Callable : Callable :=
  ⟨"sin", none, some [(ArgId.pos 0, some NpDtype.float32)], none⟩

/-- Identity stand-in for the external inference routine, used by concrete
evaluations. -/
def inferNoop : Kernel → Except Err Kernel := fun k => .ok k

/-- Witness for C5: re-supplying the identical mapping returns a
structurally equal callable; a differing mapping raises the
double-specialization error. -/
theorem C5_with_types_respecialization_witness :
    (∃ Cr, withTypes c5Callable [(ArgId.pos 0, some NpDtype.float32)] ⟨.c, []⟩ inferNoop
        = .ok Cr ∧ callableEq Cr c5Callable = true) ∧
    withTypes c5Callable [(ArgId.pos 0, some NpDtype.float64)] ⟨.c, []⟩ inferNoop
        = .error .doubleSpecialization :=
  ⟨(C5_with_types_respecialization c5Callable [(ArgId.pos 0, some NpDtype.float32)]
      ⟨.c, []⟩ inferNoop [(ArgId.pos 0, some NpDtype.float32)] rfl (by decide)).1 (by decide),
   (C5_with_types_respecialization c5Callable [(ArgId.pos 0, some NpDtype.float64)]
      ⟨.c, []⟩ inferNoop [(ArgId.pos 0, some NpDtype.float32)] rfl (by decide)).2 (by decide)⟩

/-! ## C10: with_descrs mutates the caller-supplied mapping -/

/-- A scalar (no-subkernel) callable, the failing input for C10. -/
def c10Scalar : Callable := ⟨"sin", none, none, none⟩

/-- C10: the claim says `with_descrs` leaves the caller-supplied mapping
unchanged.  The scalar branch executes
`arg_id_to_descr[-1] = ValueArgDescriptor()` (source line 392), an in-place
insertion into the caller's dict: starting from the empty mapping, the
caller's dict ends as `{-1: ValueArgDescriptor()}` ≠ `{}`. -/
theorem C10_with_descrs_mutates_caller_map :
    (with_descrs c10Scalar []).2 = [(ArgId.pos (-1), valueArgDescriptor)] ∧
    (with_descrs c10Scalar []).2 ≠ ([] : DescrMap) :=
  ⟨rfl, by decide⟩

/-! ## C8: dimension checking during shape specialization -/

/-- `Except.isOk`-style discriminator used in counterexample statements. -/
def exceptIsOk {α : Type} : Except Err α → Bool
  | .ok _ => true
  | .error _ => false

/-- A subkernel with one declared rank-3 argument. -/
def c8Kernel : Kernel :=
  ⟨"callee", [⟨"x", none, some [5, 5, 5], some [0, 1, 2]⟩], [], ["x"]⟩

/-- A descriptor carrying two dimension tags. -/
def c8Descr2 : ArgDescr := ⟨none, none, some [0, 1]⟩

/-- The callable wrapping `c8Kernel`. -/
def c8SubCallable : Callable := ⟨"f", some c8Kernel, none, none⟩

/-- C8 counterexample: the claim says any supplied id — by name or by
position, normalized via the bijection — with a mismatched dimension-tag
count fails with the dimension-mismatch error.  In the code, (a) the
dimension check lives only in `CallableKernel.with_descriptors`, whose
`arg_dict` lookup is keyed by argument *name*: a positional id raises
`KeyError` before any dimension comparison (no bijection normalization), and
(b) the normalizing `InKernelCallable.with_descrs` performs no dimension
check at all: a 2-tag descriptor against the declared rank-3 argument
succeeds. -/
theorem C8_dim_check_counterexample :
    with_descriptors c8Kernel [(ArgId.pos 0, c8Descr2)] = .error .keyError ∧
    Err.keyError ≠ Err.dimensionMismatch ∧
    exceptIsOk (with_descrs c8SubCallable [(ArgId.kw "x", c8Descr2)]).1 = true :=
  ⟨rfl, by decide, rfl⟩

theorem checkDims_mismatch (k : Kernel) :
    ∀ m : DescrMap,
    (∀ p ∈ m, ∃ name arg dt sh, p.1 = ArgId.kw name ∧ argDict k name = some arg ∧
        p.2.dimTags = some dt ∧ arg.shape = some sh) →
    (∃ p ∈ m, ∃ name arg dt sh, p.1 = ArgId.kw name ∧ argDict k name = some arg ∧
        p.2.dimTags = some dt ∧ arg.shape = some sh ∧ dt.length ≠ sh.length) →
    checkDims k m = .error .dimensionMismatch := by
  intro m
  induction m with
  | nil =>
    rintro _ ⟨p, hp, _⟩
    exact absurd hp (List.not_mem_nil p)
  | cons q rest ih =>
    rintro hvalid ⟨p, hp, name, arg, dt, sh, hkw, hdict, hdt, hsh, hlen⟩
    obtain ⟨nameq, argq, dtq, shq, hkwq, hdictq, hdtq, hshq⟩ :=
      hvalid q (List.mem_cons_self q rest)
    obtain ⟨id, d⟩ := q
    simp only at hkwq hdtq
    subst hkwq
    simp only [checkDims, hdtq, hdictq, hshq]
    by_cases hq : dtq.length ≠ shq.length
    · simp [hq]
    · simp only [hq, if_false]
      apply ih
      · intro r hr
        exact hvalid r (List.mem_cons_of_mem _ hr)
      · rcases List.mem_cons.mp hp with hphead | hptail
        · exfalso
          subst hphead
          simp only at hkw hdt
          cases hkw
          rw [hdict] at hdictq
          cases hdictq
          rw [hdt] at hdtq
          cases hdtq
          rw [hsh] at hshq
          cases hshq
          exact hq hlen
        · exact ⟨p, hptail, name, arg, dt, sh, hkw, hdict, hdt, hsh, hlen⟩

/-- C8 amended: for every id supplied *by name* (the only form
`CallableKernel.with_descriptors` supports — its `arg_dict` lookup is keyed
by argument names, so positional ids fail with `KeyError` and no bijection
normalization happens), a supplied descriptor whose dimension-tag count
differs from the named argument's declared shape length makes
`with_descriptors` fail with the dimension-mismatch error. -/
theorem C8_with_descriptors_dim_check :
    ∀ (k : Kernel) (m : DescrMap),
    (∀ p ∈ m, ∃ name arg dt sh, p.1 = ArgId.kw name ∧ argDict k name = some arg ∧
        p.2.dimTags = some dt ∧ arg.shape = some sh) →
    (∃ p ∈ m, ∃ name arg dt sh, p.1 = ArgId.kw name ∧ argDict k name = some arg ∧
        p.2.dimTags = some dt ∧ arg.shape = some sh ∧ dt.length ≠ sh.length) →
    with_descriptors k m = .error .dimensionMismatch := by
  intro k m hvalid hex
  have hcd := checkDims_mismatch k m hvalid hex
  simp [with_descriptors, hcd, Bind.bind, Except.bind]

/-- Witness for C8 (amended): a 2-tag descriptor supplied by name against
the declared rank-3 argument of `c8Kernel` raises the dimension-mismatch
error. -/
theorem C8_with_descriptors_dim_check_witness :
    with_descriptors c8Kernel [(ArgId.kw "x", c8Descr2)] = .error .dimensionMismatch :=
  C8_with_descriptors_dim_check c8Kernel [(ArgId.kw "x", c8Descr2)]
    (by
      intro p hp
      rw [List.mem_singleton] at hp
      subst hp
      exact ⟨"x", ⟨"x", none, some [5, 5, 5], some [0, 1, 2]⟩, [0, 1], [5, 5, 5],
        rfl, rfl, rfl, rfl⟩)
    ⟨(ArgId.kw "x", c8Descr2), List.mem_singleton.mpr rfl,
      "x", ⟨"x", none, some [5, 5, 5], some [0, 1, 2]⟩, [0, 1], [5, 5, 5],
      rfl, rfl, rfl, rfl, by decide⟩

/-! ## C9: emit_call parameter ordering -/

theorem emapM_ok {α β : Type} {f : α → Except Err β} :
    ∀ {l : List α} {out : List β}, emapM f l = .ok out →
    out.length = l.length ∧
    ∀ (i : Nat) (a : α), l.get? i = some a →
      ∃ b, f a = .ok b ∧ out.get? i = some b := by
  intro l
  induction l with
  | nil =>
    intro out h
    cases h
    exact ⟨rfl, fun i a ha => absurd ha (by simp)⟩
  | cons a l ih =>
    intro out h
    rw [emapM] at h
    cases hfa : f a with
    | error e => rw [hfa] at h; exact Except.noConfusion h
    | ok b =>
      rw [hfa] at h
      simp only [Bind.bind, Except.bind] at h
      cases hrest : emapM f l with
      | error e => rw [hrest] at h; exact Except.noConfusion h
      | ok r =>
        rw [hrest] at h
        cases h
        obtain ⟨hlen, hget⟩ := ih hrest
        refine ⟨by simp [hlen], ?_⟩
        intro i x hx
        cases i with
        | zero =>
          rw [List.get?_cons_zero] at hx
          cases hx
          exact ⟨b, hfa, rfl⟩
        | succ j =>
          rw [List.get?_cons_succ] at hx
          obtain ⟨bj, hbj, hout⟩ := hget j x hx
          exact ⟨bj, hbj, by simpa using hout⟩

theorem enumFrom_get? {α : Type} :
    ∀ (l : List α) (n i : Nat),
    (List.enumFrom n l).get? i = (l.get? i).map (fun a => (n + i, a)) := by
  intro l
  induction l with
  | nil => intro n i; simp
  | cons a l ih =>
    intro n i
    cases i with
    | zero => simp
    | succ j =>
      simp only [List.enumFrom, List.get?_cons_succ]
      rw [ih (n + 1) j]
      cases l.get? j <;> simp <;> omega

/-- C9: a successful `emit_call` uses the subkernel's name as the callee,
and its translated parameter list is the instruction's positional arguments
(translation dtype looked up at their integer ids), followed by the keyword
arguments reordered into their bijection-assigned positions (dtype looked up
by keyword), followed by the assignee expressions (the `i`-th assignee's
dtype looked up at id `-(i+1)`). -/
theorem C9_emit_call_ordering :
    ∀ (C : Callable) (insn : CallInsn) (k : Kernel) (m : DtypeMap) (nm : String)
      (ps : List (PExpr × Option NpDtype)),
    C.arg_id_to_dtype = some m → C.subkernel = some k →
    emit_call C insn = .ok (nm, ps) →
    nm = k.name ∧
    ps.length = insn.parameters.length + insn.kw_parameters.length + insn.assignees.length ∧
    (∀ (i : Nat) (p : PExpr), insn.parameters.get? i = some p →
      ∃ d, dlookup (ArgId.pos (i : Int)) m = some d ∧ ps.get? i = some (p, d)) ∧
    (∀ j : Nat, j < insn.kw_parameters.length →
      ∃ kwName e d,
        dlookup ((insn.parameters.length : Int) + (j : Int)) (get_kw_pos_association k).2
          = some kwName ∧
        dlookup kwName insn.kw_parameters = some e ∧
        dlookup (ArgId.kw kwName) m = some d ∧
        ps.get? (insn.parameters.length + j) = some (e, d)) ∧
    (∀ (i : Nat) (a : PExpr), insn.assignees.get? i = some a →
      ∃ d, dlookup (ArgId.pos (-(i : Int) - 1)) m = some d ∧
        ps.get? (insn.parameters.length + insn.kw_parameters.length + i) = some (a, d)) := by
  intro C insn k m nm ps hm hk h
  rw [emit_call, hm, hk] at h
  simp only [otoe, Bind.bind, Except.bind] at h
  cases hA : emitParPairs m insn.parameters with
  | error e => rw [hA] at h; exact Except.noConfusion h
  | ok parPairs =>
  rw [hA] at h
  cases hB : emitKwPairs m (get_kw_pos_association k).2 insn.parameters.length
      insn.kw_parameters with
  | error e => rw [hB] at h; exact Except.noConfusion h
  | ok kwPairs =>
  rw [hB] at h
  cases hC : emitAsgPairs m insn.assignees with
  | error e => rw [hC] at h; exact Except.noConfusion h
  | ok asgPairs =>
  rw [hC] at h
  cases h
  obtain ⟨hAlen, hAget⟩ := emapM_ok hA
  obtain ⟨hBlen, hBget⟩ := emapM_ok hB
  obtain ⟨hClen, hCget⟩ := emapM_ok hC
  have hAlen2 : parPairs.length = insn.parameters.length := by
    rw [hAlen, List.enum_length]
  have hBlen2 : kwPairs.length = insn.kw_parameters.length := by
    rw [hBlen, List.length_range]
  have hClen2 : asgPairs.length = insn.assignees.length := by
    rw [hClen, List.enum_length]
  refine ⟨rfl, by simp [hAlen2, hBlen2, hClen2, Nat.add_assoc], ?_, ?_, ?_⟩
  · intro i p hp
    have hlt : i < insn.parameters.length := by
      obtain ⟨hlt, -⟩ := List.get?_eq_some.mp hp
      exact hlt
    have henum : insn.parameters.enum.get? i = some (i, p) := by
      rw [List.enum, enumFrom_get?, hp]
      simp
    obtain ⟨b, hb, hout⟩ := hAget i (i, p) henum
    simp only at hb
    cases hdl : dlookup (ArgId.pos (i : Int)) m with
    | none => rw [hdl] at hb; exact Except.noConfusion hb
    | some d =>
      rw [hdl] at hb
      simp only [otoe, Bind.bind, Except.bind] at hb
      cases hb
      refine ⟨d, rfl, ?_⟩
      rw [List.get?_append (by rw [List.length_append]; omega)]
      rw [List.get?_append (by omega)]
      exact hout
  · intro j hj
    have hrange : (List.range insn.kw_parameters.length).get? j = some j :=
      List.get?_range hj
    obtain ⟨b, hb, hout⟩ := hBget j j hrange
    cases hkwn : dlookup ((insn.parameters.length : Int) + (j : Int))
        (get_kw_pos_association k).2 with
    | none => rw [hkwn] at hb; exact Except.noConfusion hb
    | some kwName =>
    rw [hkwn] at hb
    simp only [otoe, Bind.bind, Except.bind] at hb
    cases hke : dlookup kwName insn.kw_parameters with
    | none => rw [hke] at hb; exact Except.noConfusion hb
    | some e =>
    rw [hke] at hb
    simp only [otoe, Bind.bind, Except.bind] at hb
    cases hkd : dlookup (ArgId.kw kwName) m with
    | none => rw [hkd] at hb; exact Except.noConfusion hb
    | some d =>
    rw [hkd] at hb
    simp only [otoe, Bind.bind, Except.bind] at hb
    cases hb
    refine ⟨kwName, e, d, rfl, hke, hkd, ?_⟩
    rw [List.get?_append (by rw [List.length_append]; omega)]
    rw [List.get?_append_right (by omega)]
    rw [hAlen2, Nat.add_sub_cancel_left]
    exact hout
  · intro i a ha
    have henum : insn.assignees.enum.get? i = some (i, a) := by
      rw [List.enum, enumFrom_get?, ha]
      simp
    obtain ⟨b, hb, hout⟩ := hCget i (i, a) henum
    simp only at hb
    cases hdl : dlookup (ArgId.pos (-(i : Int) - 1)) m with
    | none => rw [hdl] at hb; exact Except.noConfusion hb
    | some d =>
      rw [hdl] at hb
      simp only [otoe, Bind.bind, Except.bind] at hb
      cases hb
      refine ⟨d, rfl, ?_⟩
      rw [List.get?_append_right (by rw [List.length_append]; omega)]
      rw [List.length_append, hAlen2, hBlen2, Nat.add_sub_cancel_left]
      exact hout

/-- Subkernel for the C9 witness: reads `a`, `b` (positions 0, 1), writes
`o` (position -1). -/
def c9Kernel : Kernel :=
  ⟨"callee",
   [⟨"a", some .float32, none, none⟩, ⟨"b", some .float32, none, none⟩,
    ⟨"o", some .float32, none, none⟩],
   ["o"], ["a", "b"]⟩

/-- Dtype mapping for the C9 witness. -/
def c9Map : DtypeMap :=
  [(ArgId.pos 0, some .float32), (ArgId.kw "b", some .float64),
   (ArgId.pos (-1), some .int32)]

/-- Ready callable for the C9 witness. -/
def c9Callable : Callable := ⟨"f", some c9Kernel, some c9Map, some []⟩

/-- Call instruction for the C9 witness: one positional argument, one
keyword argument, one assignee. -/
def c9Insn : CallInsn := ⟨[PExpr.var "p0"], [("b", PExpr.var "kb")], [PExpr.var "out"]⟩

/-- The emitted parameter/dtype pairs for the C9 witness. -/
def c9Pairs : List (PExpr × Option NpDtype) :=
  [(PExpr.var "p0", some .float32), (PExpr.var "kb", some .float64),
   (PExpr.var "out", some .int32)]

/-- Witness for C9: a concrete one-positional, one-keyword, one-assignee
call emits `callee(p0, kb, out)` with the positional dtype from id 0, the
keyword dtype from its name, and the assignee dtype from id -1. -/
theorem C9_emit_call_ordering_witness :
    emit_call c9Callable c9Insn = .ok ("callee", c9Pairs) ∧
    ("callee" = c9Kernel.name ∧
     c9Pairs.length
       = c9Insn.parameters.length + c9Insn.kw_parameters.length + c9Insn.assignees.length ∧
     (∀ (i : Nat) (p : PExpr), c9Insn.parameters.get? i = some p →
       ∃ d, dlookup (ArgId.pos (i : Int)) c9Map = some d ∧ c9Pairs.get? i = some (p, d)) ∧
     (∀ j : Nat, j < c9Insn.kw_parameters.length →
       ∃ kwName e d,
         dlookup ((c9Insn.parameters.length : Int) + (j : Int))
           (get_kw_pos_association c9Kernel).2 = some kwName ∧
         dlookup kwName c9Insn.kw_parameters = some e ∧
         dlookup (ArgId.kw kwName) c9Map = some d ∧
         c9Pairs.get? (c9Insn.parameters.length + j) = some (e, d)) ∧
     (∀ (i : Nat) (a : PExpr), c9Insn.assignees.get? i = some a →
       ∃ d, dlookup (ArgId.pos (-(i : Int) - 1)) c9Map = some d ∧
         c9Pairs.get? (c9Insn.parameters.length + c9Insn.kw_parameters.length + i)
           = some (a, d))) :=
  ⟨rfl, C9_emit_call_ordering c9Callable c9Insn c9Kernel c9Map "callee" c9Pairs rfl rfl rfl⟩

/-! ## C7: subkernel type specialization populates both key forms -/

/-- The bindings produced by `buildAux` when every insertion hits a fresh
key (which the nodup-names hypothesis guarantees): name binding followed by
position binding, per argument in order. -/
def flatDtype : List KArg → List String → Int → Int → DtypeMap
  | [], _, _, _ => []
  | a :: rest, w, rc, wc =>
    if a.name ∈ w then
      (ArgId.kw a.name, a.dtype) :: (ArgId.pos wc, a.dtype) :: flatDtype rest w rc (wc - 1)
    else
      (ArgId.kw a.name, a.dtype) :: (ArgId.pos rc, a.dtype) :: flatDtype rest w (rc + 1) wc

theorem buildAux_eq_append :
    ∀ (args : List KArg) (w : List String) (rc wc : Int) (acc : DtypeMap),
    (args.map (fun a => a.name)).Nodup →
    (∀ a ∈ args, (ArgId.kw a.name) ∉ dkeys acc) →
    (∀ p : Int, (ArgId.pos p) ∈ dkeys acc → wc < p ∧ p < rc) →
    wc < rc →
    buildAux args w rc wc acc = acc ++ flatDtype args w rc wc := by
  intro args
  induction args with
  | nil =>
    intro w rc wc acc _ _ _ _
    simp [buildAux, flatDtype]
  | cons a rest ih =>
    intro w rc wc acc hnodup hnames hints horder
    rw [List.map_cons, List.nodup_cons] at hnodup
    have hfreshName : (ArgId.kw a.name) ∉ dkeys acc :=
      hnames a (List.mem_cons_self a rest)
    have hstep1 : dinsert (ArgId.kw a.name) a.dtype acc = acc ++ [(ArgId.kw a.name, a.dtype)] :=
      dinsert_of_not_mem _ hfreshName
    by_cases hw : a.name ∈ w
    · have hfreshPos : (ArgId.pos wc) ∉ dkeys (acc ++ [(ArgId.kw a.name, a.dtype)]) := by
        rw [dkeys_append]
        intro hmem
        rcases List.mem_append.mp hmem with hin | hin
        · have := (hints wc hin).1
          omega
        · simp [dkeys] at hin
      have hstep2 :
          dinsert (ArgId.pos wc) a.dtype (acc ++ [(ArgId.kw a.name, a.dtype)])
            = acc ++ [(ArgId.kw a.name, a.dtype), (ArgId.pos wc, a.dtype)] := by
        rw [dinsert_of_not_mem _ hfreshPos, List.append_assoc]
        rfl
      rw [buildAux, if_pos hw, hstep1, hstep2]
      rw [ih w rc (wc - 1) _ hnodup.2 ?names ?ints (by omega)]
      case names =>
        intro b hb
        rw [dkeys_append]
        intro hmem
        rcases List.mem_append.mp hmem with hin | hin
        · exact hnames b (List.mem_cons_of_mem _ hb) hin
        · have hin2 : ArgId.kw b.name ∈ [ArgId.kw a.name, ArgId.pos wc] := hin
          rcases List.mem_cons.mp hin2 with h1 | h1
          · have hbn : b.name = a.name := by injection h1
            exact hnodup.1 (hbn ▸ List.mem_map.mpr ⟨b, hb, rfl⟩)
          · rcases List.mem_cons.mp h1 with h2 | h2
            · exact ArgId.noConfusion h2
            · exact absurd h2 (List.not_mem_nil _)
      case ints =>
        intro p hp
        rw [dkeys_append] at hp
        rcases List.mem_append.mp hp with hin | hin
        · have := hints p hin
          omega
        · have hin2 : ArgId.pos p ∈ [ArgId.kw a.name, ArgId.pos wc] := hin
          rcases List.mem_cons.mp hin2 with h1 | h1
          · exact ArgId.noConfusion h1
          · rcases List.mem_cons.mp h1 with h2 | h2
            · have hpw : p = wc := by injection h2
              omega
            · exact absurd h2 (List.not_mem_nil _)
      rw [flatDtype, if_pos hw, List.append_assoc]
      rfl
    · have hfreshPos : (ArgId.pos rc) ∉ dkeys (acc ++ [(ArgId.kw a.name, a.dtype)]) := by
        rw [dkeys_append]
        intro hmem
        rcases List.mem_append.mp hmem with hin | hin
        · have := (hints rc hin).2
          omega
        · simp [dkeys] at hin
      have hstep2 :
          dinsert (ArgId.pos rc) a.dtype (acc ++ [(ArgId.kw a.name, a.dtype)])
            = acc ++ [(ArgId.kw a.name, a.dtype), (ArgId.pos rc, a.dtype)] := by
        rw [dinsert_of_not_mem _ hfreshPos, List.append_assoc]
        rfl
      rw [buildAux, if_neg hw, hstep1, hstep2]
      rw [ih w (rc + 1) wc _ hnodup.2 ?names ?ints (by omega)]
      case names =>
        intro b hb
        rw [dkeys_append]
        intro hmem
        rcases List.mem_append.mp hmem with hin | hin
        · exact hnames b (List.mem_cons_of_mem _ hb) hin
        · have hin2 : ArgId.kw b.name ∈ [ArgId.kw a.name, ArgId.pos rc] := hin
          rcases List.mem_cons.mp hin2 with h1 | h1
          · have hbn : b.name = a.name := by injection h1
            exact hnodup.1 (hbn ▸ List.mem_map.mpr ⟨b, hb, rfl⟩)
          · rcases List.mem_cons.mp h1 with h2 | h2
            · exact ArgId.noConfusion h2
            · exact absurd h2 (List.not_mem_nil _)
      case ints =>
        intro p hp
        rw [dkeys_append] at hp
        rcases List.mem_append.mp hp with hin | hin
        · have := hints p hin
          omega
        · have hin2 : ArgId.pos p ∈ [ArgId.kw a.name, ArgId.pos rc] := hin
          rcases List.mem_cons.mp hin2 with h1 | h1
          · exact ArgId.noConfusion h1
          · rcases List.mem_cons.mp h1 with h2 | h2
            · have hpr : p = rc := by injection h2
              omega
            · exact absurd h2 (List.not_mem_nil _)
      rw [flatDtype, if_neg hw, List.append_assoc]
      rfl

theorem readArgs_cons_written {b : KArg} {rest : List KArg} {w : List String}
    (hw : b.name ∈ w) : readArgs (b :: rest) w = readArgs rest w := by
  simp [readArgs, hw]

theorem readArgs_cons_read {b : KArg} {rest : List KArg} {w : List String}
    (hw : b.name ∉ w) : readArgs (b :: rest) w = b :: readArgs rest w := by
  simp [readArgs, hw]

theorem writtenArgs_cons_written {b : KArg} {rest : List KArg} {w : List String}
    (hw : b.name ∈ w) : writtenArgs (b :: rest) w = b :: writtenArgs rest w := by
  simp [writtenArgs, hw]

theorem writtenArgs_cons_read {b : KArg} {rest : List KArg} {w : List String}
    (hw : b.name ∉ w) : writtenArgs (b :: rest) w = writtenArgs rest w := by
  simp [writtenArgs, hw]

theorem flatDtype_lookup_read :
    ∀ (args : List KArg) (w : List String) (rc wc : Int), wc < rc →
    ∀ (i : Nat) (a : KArg), (readArgs args w).get? i = some a →
    dlookup (ArgId.pos (rc + (i : Int))) (flatDtype args w rc wc) = some a.dtype := by
  intro args
  induction args with
  | nil =>
    intro w rc wc _ i a ha
    simp [readArgs] at ha
  | cons b rest ih =>
    intro w rc wc horder i a ha
    by_cases hw : b.name ∈ w
    · rw [readArgs_cons_written hw] at ha
      rw [flatDtype, if_pos hw]
      rw [dlookup, if_neg (by intro h; exact ArgId.noConfusion h)]
      rw [dlookup, if_neg (by
        intro h
        have h2 : ArgId.pos wc = ArgId.pos (rc + (i : Int)) := h
        have h3 : wc = rc + (i : Int) := by injection h2
        omega)]
      exact ih w rc (wc - 1) (by omega) i a ha
    · rw [readArgs_cons_read hw] at ha
      rw [flatDtype, if_neg hw]
      cases i with
      | zero =>
        rw [List.get?_cons_zero] at ha
        cases ha
        rw [dlookup, if_neg (by intro h; exact ArgId.noConfusion h)]
        rw [dlookup, if_pos (by rw [Nat.cast_zero, add_zero])]
      | succ j =>
        rw [List.get?_cons_succ] at ha
        rw [dlookup, if_neg (by intro h; exact ArgId.noConfusion h)]
        rw [dlookup, if_neg (by
          intro h
          have h2 : ArgId.pos rc = ArgId.pos (rc + ((j + 1 : Nat) : Int)) := h
          have h3 : rc = rc + ((j + 1 : Nat) : Int) := by injection h2
          push_cast at h3
          omega)]
        have hidx : rc + ((j + 1 : Nat) : Int) = (rc + 1) + (j : Int) := by
          push_cast
          ring
        rw [hidx]
        exact ih w (rc + 1) wc (by omega) j a ha

theorem flatDtype_lookup_write :
    ∀ (args : List KArg) (w : List String) (rc wc : Int), wc < rc →
    ∀ (j : Nat) (a : KArg), (writtenArgs args w).get? j = some a →
    dlookup (ArgId.pos (wc - (j : Int))) (flatDtype args w rc wc) = some a.dtype := by
  intro args
  induction args with
  | nil =>
    intro w rc wc _ j a ha
    simp [writtenArgs] at ha
  | cons b rest ih =>
    intro w rc wc horder j a ha
    by_cases hw : b.name ∈ w
    · rw [writtenArgs_cons_written hw] at ha
      rw [flatDtype, if_pos hw]
      cases j with
      | zero =>
        rw [List.get?_cons_zero] at ha
        cases ha
        rw [dlookup, if_neg (by intro h; exact ArgId.noConfusion h)]
        rw [dlookup, if_pos (by rw [Nat.cast_zero, sub_zero])]
      | succ jj =>
        rw [List.get?_cons_succ] at ha
        rw [dlookup, if_neg (by intro h; exact ArgId.noConfusion h)]
        rw [dlookup, if_neg (by
          intro h
          have h2 : ArgId.pos wc = ArgId.pos (wc - ((jj + 1 : Nat) : Int)) := h
          have h3 : wc = wc - ((jj + 1 : Nat) : Int) := by injection h2
          push_cast at h3
          omega)]
        have hidx : wc - ((jj + 1 : Nat) : Int) = (wc - 1) - (jj : Int) := by
          push_cast
          ring
        rw [hidx]
        exact ih w rc (wc - 1) (by omega) jj a ha
    · rw [writtenArgs_cons_read hw] at ha
      rw [flatDtype, if_neg hw]
      rw [dlookup, if_neg (by intro h; exact ArgId.noConfusion h)]
      rw [dlookup, if_neg (by
        intro h
        have h2 : ArgId.pos rc = ArgId.pos (wc - (j : Int)) := h
        have h3 : rc = wc - (j : Int) := by injection h2
        have h4 : (0 : Int) ≤ (j : Int) := Int.ofNat_nonneg j
        omega)]
      exact ih w (rc + 1) wc (by omega) j a ha

theorem flatDtype_lookup_name :
    ∀ (args : List KArg) (w : List String) (rc wc : Int),
    (args.map (fun a => a.name)).Nodup →
    ∀ a ∈ args, dlookup (ArgId.kw a.name) (flatDtype args w rc wc) = some a.dtype := by
  intro args
  induction args with
  | nil =>
    intro w rc wc _ a ha
    exact absurd ha (List.not_mem_nil a)
  | cons b rest ih =>
    intro w rc wc hnodup a ha
    rw [List.map_cons, List.nodup_cons] at hnodup
    rcases List.mem_cons.mp ha with hab | hmem
    · subst hab
      by_cases hw : a.name ∈ w
      · rw [flatDtype, if_pos hw, dlookup, if_pos rfl]
      · rw [flatDtype, if_neg hw, dlookup, if_pos rfl]
    · have hne : b.name ≠ a.name := by
        intro h
        exact hnodup.1 (h ▸ List.mem_map.mpr ⟨a, hmem, rfl⟩)
      by_cases hw : b.name ∈ w
      · rw [flatDtype, if_pos hw]
        rw [dlookup, if_neg (by
          intro h
          have h2 : ArgId.kw b.name = ArgId.kw a.name := h
          exact hne (by injection h2))]
        rw [dlookup, if_neg (by intro h; exact ArgId.noConfusion h)]
        exact ih w rc (wc - 1) hnodup.2 a hmem
      · rw [flatDtype, if_neg hw]
        rw [dlookup, if_neg (by
          intro h
          have h2 : ArgId.kw b.name = ArgId.kw a.name := h
          exact hne (by injection h2))]
        rw [dlookup, if_neg (by intro h; exact ArgId.noConfusion h)]
        exact ih w (rc + 1) wc hnodup.2 a hmem

/-- C7: for a subkernel callable (no scalar-intrinsic match, untruthy
existing dtype mapping), a successful `with_types` returns a callable
carrying the inference-resolved subkernel and the rebuilt `arg_id_to_dtype`;
when the resolved subkernel's argument names are distinct, that mapping
binds every argument's dtype under BOTH its name and its positional id —
the `i`-th read argument under `i` and the `j`-th written argument under
`-(j+1)`, in declaration order. -/
theorem C7_subkernel_with_types :
    ∀ (C : Callable) (k : Kernel) (m : DtypeMap) (t : Target)
      (infer : Kernel → Except Err Kernel) (Cr : Callable),
    (C.arg_id_to_dtype = none ∨ C.arg_id_to_dtype = some []) →
    C.name ∉ t.identifiers →
    C.subkernel = some k →
    withTypes C m t infer = .ok Cr →
    ∃ newArgs kr,
      overlayArgs k m (get_kw_pos_association k).1 = .ok newArgs ∧
      infer { k with args := newArgs } = .ok kr ∧
      Cr.subkernel = some kr ∧
      Cr.arg_id_to_dtype = some (buildMap kr.args kr.writtenVars) ∧
      ((kr.args.map (fun a => a.name)).Nodup →
        (∀ (i : Nat) (a : KArg), (readArgs kr.args kr.writtenVars).get? i = some a →
          dlookup (ArgId.pos (i : Int)) (buildMap kr.args kr.writtenVars) = some a.dtype ∧
          dlookup (ArgId.kw a.name) (buildMap kr.args kr.writtenVars) = some a.dtype) ∧
        (∀ (j : Nat) (a : KArg), (writtenArgs kr.args kr.writtenVars).get? j = some a →
          dlookup (ArgId.pos (-(j : Int) - 1)) (buildMap kr.args kr.writtenVars) = some a.dtype ∧
          dlookup (ArgId.kw a.name) (buildMap kr.args kr.writtenVars) = some a.dtype)) := by
  intro C k m t infer Cr hdt hid hk h
  have hdisp : withTypesDispatch C m t infer = .ok Cr := by
    rcases hdt with hnone | hempty
    · rw [withTypes, hnone] at h
      exact h
    · rw [withTypes, hempty] at h
      simpa using h
  rw [withTypesDispatch] at hdisp
  rw [if_neg hid] at hdisp
  simp only [Bind.bind, Except.bind] at hdisp
  rw [hk] at hdisp
  have hsub : subkernelWithTypes C k m infer = .ok Cr := hdisp
  rw [subkernelWithTypes] at hsub
  simp only [Bind.bind, Except.bind] at hsub
  cases hov : overlayArgs k m (get_kw_pos_association k).1 with
  | error e => rw [hov] at hsub; exact Except.noConfusion hsub
  | ok newArgs =>
  rw [hov] at hsub
  simp only [] at hsub
  cases hinf : infer { k with args := newArgs } with
  | error e => rw [hinf] at hsub; exact Except.noConfusion hsub
  | ok kr =>
  rw [hinf] at hsub
  simp only [] at hsub
  cases hsub
  refine ⟨newArgs, kr, rfl, hinf, rfl, rfl, ?_⟩
  intro hnodup
  have hflat : buildMap kr.args kr.writtenVars
      = flatDtype kr.args kr.writtenVars 0 (-1) := by
    rw [buildMap]
    rw [buildAux_eq_append kr.args kr.writtenVars 0 (-1) [] hnodup
      (by intro a _ hmem; exact absurd hmem (List.not_mem_nil _))
      (by intro p hmem; exact absurd hmem (List.not_mem_nil _))
      (by omega)]
    rw [List.nil_append]
  constructor
  · intro i a ha
    have hmem : a ∈ kr.args :=
      List.mem_of_mem_filter (List.get?_mem ha)
    constructor
    · rw [hflat]
      have := flatDtype_lookup_read kr.args kr.writtenVars 0 (-1) (by omega) i a ha
      simpa using this
    · rw [hflat]
      exact flatDtype_lookup_name kr.args kr.writtenVars 0 (-1) hnodup a hmem
  · intro j a ha
    have hmem : a ∈ kr.args :=
      List.mem_of_mem_filter (List.get?_mem ha)
    constructor
    · rw [hflat]
      have := flatDtype_lookup_write kr.args kr.writtenVars 0 (-1) (by omega) j a ha
      have hidx : (-1 : Int) - (j : Int) = -(j : Int) - 1 := by ring
      rw [hidx] at this
      exact this
    · rw [hflat]
      exact flatDtype_lookup_name kr.args kr.writtenVars 0 (-1) hnodup a hmem

/-- Subkernel for the C7 witness: reads `x`, writes `y`, dtypes unknown. -/
def c7Kernel : Kernel :=
  ⟨"callee", [⟨"x", none, none, none⟩, ⟨"y", none, none, none⟩], ["y"], ["x"]⟩

/-- The unspecialized subkernel callable for the C7 witness. -/
def c7Callable : Callable := ⟨"callee", some c7Kernel, none, none⟩

/-- Stand-in for the external inference routine in the C7 witness: resolves
every argument dtype to `float32`. -/
def c7Infer : Kernel → Except Err Kernel := fun k =>
  .ok { k with args := k.args.map (fun a => { a with dtype := some NpDtype.float32 }) }

/-- The inference-resolved subkernel of the C7 witness. -/
def c7KernelResolved : Kernel :=
  ⟨"callee",
   [⟨"x", some NpDtype.float32, none, none⟩, ⟨"y", some NpDtype.float32, none, none⟩],
   ["y"], ["x"]⟩

/-- The specialized callable produced in the C7 witness. -/
def c7Result : Callable :=
  ⟨"callee", some c7KernelResolved,
   some (buildMap c7KernelResolved.args c7KernelResolved.writtenVars), none⟩

/-- Witness for C7: specializing the concrete subkernel with `x: float32`
succeeds, and the resulting mapping binds `x` under both `"x"` and `0`, and
`y` under both `"y"` and `-1`. -/
theorem C7_subkernel_with_types_witness :
    withTypes c7Callable [(ArgId.kw "x", some NpDtype.float32)] ⟨.c, []⟩ c7Infer
      = .ok c7Result ∧
    (∃ newArgs kr,
      overlayArgs c7Kernel [(ArgId.kw "x", some NpDtype.float32)]
        (get_kw_pos_association c7Kernel).1 = .ok newArgs ∧
      c7Infer { c7Kernel with args := newArgs } = .ok kr ∧
      c7Result.subkernel = some kr ∧
      c7Result.arg_id_to_dtype = some (buildMap kr.args kr.writtenVars) ∧
      ((kr.args.map (fun a => a.name)).Nodup →
        (∀ (i : Nat) (a : KArg), (readArgs kr.args kr.writtenVars).get? i = some a →
          dlookup (ArgId.pos (i : Int)) (buildMap kr.args kr.writtenVars) = some a.dtype ∧
          dlookup (ArgId.kw a.name) (buildMap kr.args kr.writtenVars) = some a.dtype) ∧
        (∀ (j : Nat) (a : KArg), (writtenArgs kr.args kr.writtenVars).get? j = some a →
          dlookup (ArgId.pos (-(j : Int) - 1)) (buildMap kr.args kr.writtenVars)
            = some a.dtype ∧
          dlookup (ArgId.kw a.name) (buildMap kr.args kr.writtenVars) = some a.dtype))) :=
  ⟨rfl,
   C7_subkernel_with_types c7Callable c7Kernel [(ArgId.kw "x", some NpDtype.float32)]
     ⟨.c, []⟩ c7Infer c7Result (Or.inl rfl) (by decide) rfl rfl⟩

/-! ## Scoping-pass invariants (C1, C2, C6) -/

theorem findName_eq_none_iff {ftn : List (Callable × String)} {c : Callable} :
    findName ftn c = none ↔ ∀ p ∈ ftn, callableEq p.1 c = false := by
  rw [findName, Option.map_eq_none', List.find?_eq_none]
  constructor
  · intro h p hp
    have := h p hp
    simpa using this
  · intro h p hp
    simp [h p hp]

theorem findName_eq_some {ftn : List (Callable × String)} {c : Callable} {n : String}
    (h : findName ftn c = some n) : ∃ kc, (kc, n) ∈ ftn ∧ callableEq kc c = true := by
  rw [findName] at h
  cases hf : ftn.find? (fun p => callableEq p.1 c) with
  | none => rw [hf] at h; exact Option.noConfusion h
  | some p =>
    rw [hf] at h
    have hmem : p ∈ ftn := List.mem_of_find?_eq_some hf
    have hprop : callableEq p.1 c = true := by
      have := List.find?_some hf
      simpa using this
    have hn : p.2 = n := by
      simpa using h
    exact ⟨p.1, by rw [← hn]; exact hmem, hprop⟩

theorem cinsert_append {ftn : List (Callable × String)} {c : Callable} (n : String)
    (h : ∀ p ∈ ftn, callableEq p.1 c = false) :
    cinsert c n ftn = ftn ++ [(c, n)] := by
  induction ftn with
  | nil => rfl
  | cons p rest ih =>
    rw [cinsert, if_neg (by rw [h p (List.mem_cons_self p rest)]; exact Bool.noConfusion)]
    rw [List.cons_append]
    rw [ih (fun q hq => h q (List.mem_cons_of_mem p hq))]

theorem renameForReg_of_none {c : Callable} (n : String) (h : c.subkernel = none) :
    renameForReg c n = c := by
  rw [renameForReg, h]

theorem renameForReg_dtype (c : Callable) (n : String) :
    (renameForReg c n).arg_id_to_dtype = c.arg_id_to_dtype := by
  cases hc : c.subkernel with
  | none => rw [renameForReg, hc]
  | some ks => rw [renameForReg, hc]

theorem renameForReg_sub_name (c : Callable) (n : String) :
    ∀ ks, (renameForReg c n).subkernel = some ks → ks.name = n := by
  intro ks h
  cases hc : c.subkernel with
  | none =>
    rw [renameForReg, hc] at h
    rw [hc] at h
    exact Option.noConfusion h
  | some ks0 =>
    rw [renameForReg, hc] at h
    simp only at h
    cases h
    rfl

/-- The invariant of the naming loop, relative to the pre-existing registry
`reg0`: registry names stay taken; every name recorded in
`scoped_functions_to_names` is taken and absent from `reg0`; a recorded
callable wrapping a subkernel has a subkernel named by its recorded name;
recorded names are pairwise distinct; recorded callables are pairwise
`__eq__`-inequal. -/
def ftnOK (reg0 : List (String × Callable)) (s : RegState) : Prop :=
  (∀ n, n ∈ dkeys reg0 → n ∈ dkeys s.ntf) ∧
  (∀ p ∈ s.ftn, p.2 ∈ dkeys s.ntf ∧ p.2 ∉ dkeys reg0) ∧
  (∀ p ∈ s.ftn, ∀ ks, (p.1).subkernel = some ks → ks.name = p.2) ∧
  List.Pairwise (fun p q => p.2 ≠ q.2) s.ftn ∧
  List.Pairwise (fun (p q : Callable × String) => callableEq p.1 q.1 = false) s.ftn

theorem ftnOK_init (reg : List (String × Callable)) : ftnOK reg ⟨reg, [], []⟩ :=
  ⟨fun _ h => h,
   fun p hp => absurd hp (List.not_mem_nil p),
   fun p hp => absurd hp (List.not_mem_nil p),
   List.Pairwise.nil, List.Pairwise.nil⟩

theorem step_no_eq_key {reg0 : List (String × Callable)} {s : RegState} {c : Callable}
    {n : String} (hok : ftnOK reg0 s) (hfind : findName s.ftn c = none)
    (hfresh : n ∉ dkeys s.ntf) :
    ∀ p ∈ s.ftn, callableEq p.1 (renameForReg c n) = false := by
  intro p hp
  cases hc : c.subkernel with
  | none =>
    rw [renameForReg_of_none n hc]
    exact (findName_eq_none_iff.mp hfind) p hp
  | some ks =>
    cases heq : callableEq p.1 (renameForReg c n) with
    | false => rfl
    | true =>
      exfalso
      have hsubeq := callableEq_subkernel heq
      have hren : (renameForReg c n).subkernel = some { ks with name := n } := by
        rw [renameForReg, hc]
      rw [hren] at hsubeq
      have hname := hok.2.2.1 p hp { ks with name := n } hsubeq
      have hp2 : p.2 = n := hname.symm
      have := (hok.2.1 p hp).1
      rw [hp2] at this
      exact hfresh this

theorem registerAux_spec (reg0 : List (String × Callable)) (fuel : Nat) :
    ∀ (calls : List (PCall × Callable)) (s s' : RegState),
    registerAux fuel calls s = .ok s' → ftnOK reg0 s →
    ftnOK reg0 s' ∧
    (∃ ext, s'.ftn = s.ftn ++ ext) ∧
    (∃ tail, s'.ctn = s.ctn ++ tail ∧ tail.length = calls.length ∧
      ∀ (i : Nat) (pc : PCall) (c : Callable), calls.get? i = some (pc, c) →
        ∃ n, tail.get? i = some (pc, n) ∧ n ∉ dkeys reg0 ∧
          ∃ kc, (kc, n) ∈ s'.ftn ∧
            optDictEq c.arg_id_to_dtype kc.arg_id_to_dtype = true ∧
            (c.subkernel = none → callableEq c kc = true)) := by
  intro calls
  induction calls with
  | nil =>
    intro s s' h hok
    cases h
    exact ⟨hok, ⟨[], by simp⟩,
      ⟨[], by simp, rfl, fun i pc c hc => absurd hc (by simp)⟩⟩
  | cons hd rest ih =>
    obtain ⟨pc, c⟩ := hd
    intro s s' h hok
    rw [registerAux] at h
    cases hfind : findName s.ftn c with
    | some n =>
      rw [hfind] at h
      simp only [] at h
      obtain ⟨hok', ⟨ext, hftn⟩, ⟨tail', hctn, hlen, hspec⟩⟩ :=
        ih ⟨s.ntf, s.ftn, s.ctn ++ [(pc, n)]⟩ s' h hok
      obtain ⟨kc, hkcmem, hkceq⟩ := findName_eq_some hfind
      refine ⟨hok', ⟨ext, hftn⟩, ⟨(pc, n) :: tail', ?_, by simp [hlen], ?_⟩⟩
      · rw [hctn]
        simp
      · intro i pci ci hci
        cases i with
        | zero =>
          rw [List.get?_cons_zero] at hci
          injection hci with hci2
          have h1 : pc = pci := congrArg Prod.fst hci2
          have h2 : c = ci := congrArg Prod.snd hci2
          subst h1
          subst h2
          refine ⟨n, rfl, (hok.2.1 (kc, n) hkcmem).2, kc, ?_, ?_, ?_⟩
          · rw [hftn]
            exact List.mem_append_left _ hkcmem
          · exact optDictEq_symm (callableEq_dtype hkceq)
          · intro _
            exact callableEq_symm hkceq
        | succ i2 =>
          rw [List.get?_cons_succ] at hci
          exact hspec i2 pci ci hci
    | none =>
      rw [hfind] at h
      cases hnx : next_indexed_name pc.functionName with
      | error e =>
        rw [hnx] at h
        simp only [] at h
        exact Except.noConfusion h
      | ok cand =>
      rw [hnx] at h
      simp only [] at h
      cases hup : uniqLoop fuel (dkeys s.ntf) cand with
      | error e =>
        rw [hup] at h
        simp only [] at h
        exact Except.noConfusion h
      | ok n =>
      rw [hup] at h
      simp only [] at h
      have hfresh : n ∉ dkeys s.ntf := uniqLoop_fresh fuel _ cand n hup
      have hnoeq := step_no_eq_key hok hfind hfresh
      have hcins : cinsert (renameForReg c n) n s.ftn = s.ftn ++ [(renameForReg c n, n)] :=
        cinsert_append n hnoeq
      have hdins : dinsert n (renameForReg c n) s.ntf = s.ntf ++ [(n, renameForReg c n)] :=
        dinsert_of_not_mem _ hfresh
      rw [hcins, hdins] at h
      have hfreshreg : n ∉ dkeys reg0 := by
        intro hn
        exact hfresh (hok.1 n hn)
      have hok2 : ftnOK reg0
          ⟨s.ntf ++ [(n, renameForReg c n)], s.ftn ++ [(renameForReg c n, n)],
           s.ctn ++ [(pc, n)]⟩ := by
        refine ⟨?_, ?_, ?_, ?_, ?_⟩
        · intro n2 hn2
          rw [dkeys_append]
          exact List.mem_append_left _ (hok.1 n2 hn2)
        · intro p hp
          rcases List.mem_append.mp hp with hin | hin
          · obtain ⟨h1, h2⟩ := hok.2.1 p hin
            exact ⟨by rw [dkeys_append]; exact List.mem_append_left _ h1, h2⟩
          · rw [List.mem_singleton] at hin
            subst hin
            refine ⟨?_, hfreshreg⟩
            rw [dkeys_append]
            apply List.mem_append_right
            exact List.mem_singleton.mpr rfl
        · intro p hp ks hks
          rcases List.mem_append.mp hp with hin | hin
          · exact hok.2.2.1 p hin ks hks
          · rw [List.mem_singleton] at hin
            subst hin
            exact renameForReg_sub_name c n ks hks
        · rw [List.pairwise_append]
          refine ⟨hok.2.2.2.1, List.pairwise_singleton _ _, ?_⟩
          intro p hp q hq
          rw [List.mem_singleton] at hq
          subst hq
          intro h2
          have h3 : p.2 = n := h2
          exact hfresh (h3 ▸ (hok.2.1 p hp).1)
        · rw [List.pairwise_append]
          refine ⟨hok.2.2.2.2, List.pairwise_singleton _ _, ?_⟩
          intro p hp q hq
          rw [List.mem_singleton] at hq
          subst hq
          exact hnoeq p hp
      obtain ⟨hok', ⟨ext, hftn⟩, ⟨tail', hctn, hlen, hspec⟩⟩ :=
        ih ⟨s.ntf ++ [(n, renameForReg c n)], s.ftn ++ [(renameForReg c n, n)],
            s.ctn ++ [(pc, n)]⟩ s' h hok2
      refine ⟨hok', ⟨(renameForReg c n, n) :: ext, by rw [hftn]; simp⟩,
        ⟨(pc, n) :: tail', by rw [hctn]; simp, by simp [hlen], ?_⟩⟩
      intro i pci ci hci
      cases i with
      | zero =>
        rw [List.get?_cons_zero] at hci
        injection hci with hci2
        have h1 : pc = pci := congrArg Prod.fst hci2
        have h2 : c = ci := congrArg Prod.snd hci2
        subst h1
        subst h2
        refine ⟨n, rfl, hfreshreg, renameForReg c n, ?_, ?_, ?_⟩
        · rw [hftn]
          apply List.mem_append_left
          apply List.mem_append_right
          exact List.mem_singleton.mpr rfl
        · rw [renameForReg_dtype]
          exact optDictEq_refl _
        · intro hcnone
          rw [renameForReg_of_none n hcnone]
          exact callableEq_refl c
      | succ i2 =>
        rw [List.get?_cons_succ] at hci
        exact hspec i2 pci ci hci

theorem registerCalls_ok {fuel : Nat} {reg : List (String × Callable)}
    {calls : List (PCall × Callable)} {ntf : List (String × Callable)}
    {ctn : List (PCall × String)}
    (h : registerCalls fuel reg calls = .ok (ntf, ctn)) :
    ∃ s', registerAux fuel calls ⟨reg, [], []⟩ = .ok s' ∧ s'.ntf = ntf ∧ s'.ctn = ctn := by
  rw [registerCalls] at h
  cases hr : registerAux fuel calls ⟨reg, [], []⟩ with
  | error e => rw [hr] at h; exact Except.noConfusion h
  | ok s' =>
    rw [hr] at h
    simp only [] at h
    cases h
    exact ⟨s', rfl, rfl, rfl⟩

theorem registerCalls_names {fuel : Nat} {reg : List (String × Callable)}
    {calls : List (PCall × Callable)} {ntf : List (String × Callable)}
    {ctn : List (PCall × String)}
    (h : registerCalls fuel reg calls = .ok (ntf, ctn)) :
    ∃ s', ftnOK reg s' ∧ ctn.length = calls.length ∧
      ∀ (i : Nat) (pc : PCall) (c : Callable), calls.get? i = some (pc, c) →
        ∃ n, ctn.get? i = some (pc, n) ∧ n ∉ dkeys reg ∧
          ∃ kc, (kc, n) ∈ s'.ftn ∧
            optDictEq c.arg_id_to_dtype kc.arg_id_to_dtype = true ∧
            (c.subkernel = none → callableEq c kc = true) := by
  obtain ⟨s', hr, hntf, hctn⟩ := registerCalls_ok h
  obtain ⟨hok', -, ⟨tail, htail, hlen, hspec⟩⟩ :=
    registerAux_spec reg fuel calls _ s' hr (ftnOK_init reg)
  have hct : ctn = tail := by
    rw [← hctn, htail]
    simp
  subst hct
  exact ⟨s', hok', hlen, hspec⟩

theorem registerCalls_assigned_fresh {fuel : Nat} {reg : List (String × Callable)}
    {calls : List (PCall × Callable)} {ntf : List (String × Callable)}
    {ctn : List (PCall × String)}
    (h : registerCalls fuel reg calls = .ok (ntf, ctn)) :
    ∀ p ∈ ctn, p.2 ∉ dkeys reg := by
  intro p hp
  obtain ⟨s', hok', hlen, hspec⟩ := registerCalls_names h
  obtain ⟨i, hi⟩ := List.mem_iff_get?.mp hp
  have hilt : i < calls.length := by
    rw [← hlen]
    obtain ⟨hlt, -⟩ := List.get?_eq_some.mp hi
    exact hlt
  obtain ⟨⟨pc, c⟩, hc⟩ : ∃ q, calls.get? i = some q := by
    cases hq : calls.get? i with
    | none =>
      rw [List.get?_eq_none] at hq
      omega
    | some q => exact ⟨q, rfl⟩
  obtain ⟨n, hn, hfresh, -⟩ := hspec i pc c hc
  have hpn : p = (pc, n) := by
    rw [hi] at hn
    exact Option.some.inj hn
  rw [hpn]
  exact hfresh

/-! ## C1: deduplication and name separation -/

/-- C1 (amended): on a successful pass, (a) two call sites whose resolved
Callables carry no subkernel and are structurally equal receive the same
assigned name, and (b) two call sites whose Callables differ in their
`arg_id_to_dtype` receive distinct names.  (The claim's unrestricted version
of (a) fails for subkernel-carrying Callables: registration renames the
subkernel, so a later structurally-equal Callable misses the lookup — see
the counterexample.) -/
theorem C1_register_calls_naming :
    ∀ (fuel : Nat) (reg : List (String × Callable)) (calls : List (PCall × Callable))
      (ntf : List (String × Callable)) (ctn : List (PCall × String)),
    registerCalls fuel reg calls = .ok (ntf, ctn) →
    ∀ (i j : Nat) (pci pcj : PCall) (ci cj : Callable) (ni nj : String),
    calls.get? i = some (pci, ci) → calls.get? j = some (pcj, cj) →
    ctn.get? i = some (pci, ni) → ctn.get? j = some (pcj, nj) →
    ((ci.subkernel = none → cj.subkernel = none → callableEq ci cj = true → ni = nj) ∧
     (optDictEq ci.arg_id_to_dtype cj.arg_id_to_dtype = false → ni ≠ nj)) := by
  intro fuel reg calls ntf ctn h i j pci pcj ci cj ni nj hcalli hcallj hctni hctnj
  obtain ⟨s', hok', hlen, hspec⟩ := registerCalls_names h
  obtain ⟨n1, hn1, -, kci, hkciMem, hkciDt, hkciSub⟩ := hspec i pci ci hcalli
  obtain ⟨n2, hn2, -, kcj, hkcjMem, hkcjDt, hkcjSub⟩ := hspec j pcj cj hcallj
  have hni : n1 = ni := by
    rw [hctni] at hn1
    exact congrArg Prod.snd (Option.some.inj hn1.symm)
  have hnj : n2 = nj := by
    rw [hctnj] at hn2
    exact congrArg Prod.snd (Option.some.inj hn2.symm)
  rw [← hni, ← hnj]
  constructor
  · intro hsi hsj heq
    have h1 : callableEq ci kci = true := hkciSub hsi
    have h2 : callableEq cj kcj = true := hkcjSub hsj
    have h3 : callableEq kci kcj = true :=
      callableEq_trans (callableEq_trans (callableEq_symm h1) heq) h2
    by_cases hsame : (kci, n1) = (kcj, n2)
    · exact congrArg Prod.snd hsame
    · exfalso
      have hne := hok'.2.2.2.2.forall
        (fun p q hpq => callableEq_false_symm hpq) hkciMem hkcjMem hsame
      rw [h3] at hne
      exact Bool.noConfusion hne
  · intro hdt hnn
    by_cases hsame : (kci, n1) = (kcj, n2)
    · have hkk : kci = kcj := congrArg Prod.fst hsame
      have h4 : optDictEq kci.arg_id_to_dtype cj.arg_id_to_dtype = true := by
        rw [hkk]
        exact optDictEq_symm hkcjDt
      have h5 := optDictEq_trans hkciDt h4
      rw [h5] at hdt
      exact Bool.noConfusion hdt
    · have hne := hok'.2.2.2.1.forall
        (fun p q hpq => Ne.symm hpq) hkciMem hkcjMem hsame
      exact hne hnn

/-- Scalar `sin` callable specialized for a float input. -/
def sinF32 : Callable :=
  ⟨"sin", none, some [(ArgId.pos 0, some .float32), (ArgId.pos (-1), some .float32)], none⟩

/-- Scalar `sin` callable specialized for an integer input (differs from
`sinF32` only in the dtype mapping). -/
def sinI32 : Callable :=
  ⟨"sin", none, some [(ArgId.pos 0, some .int32), (ArgId.pos (-1), some .float32)], none⟩

/-- Three distinct `sin` call sites. -/
def callX : PCall := ⟨"sin", [PExpr.var "x"]⟩

/-- See `callX`. -/
def callY : PCall := ⟨"sin", [PExpr.var "y"]⟩

/-- See `callX`. -/
def callZ : PCall := ⟨"sin", [PExpr.var "z"]⟩

/-- The calls of the C1 witness: float-`sin`, int-`sin`, float-`sin`. -/
def c1Calls : List (PCall × Callable) := [(callX, sinF32), (callY, sinI32), (callZ, sinF32)]

/-- Registry produced by the C1 witness pass. -/
def c1Ntf : List (String × Callable) := [("sin_0", sinF32), ("sin_1", sinI32)]

/-- Names assigned by the C1 witness pass. -/
def c1Ctn : List (PCall × String) := [(callX, "sin_0"), (callY, "sin_1"), (callZ, "sin_0")]

/-- Witness for C1 (amended): the two structurally-equal scalar callables
(sites 0 and 2) get the identical name, and the dtype-differing pair
(sites 0 and 1) get distinct names. -/
theorem C1_register_calls_naming_witness :
    registerCalls 10 [] c1Calls = .ok (c1Ntf, c1Ctn) ∧
    ("sin_0" : String) = "sin_0" ∧ ("sin_0" : String) ≠ "sin_1" :=
  ⟨rfl,
   (C1_register_calls_naming 10 [] c1Calls c1Ntf c1Ctn rfl 0 2 callX callZ sinF32 sinF32
     "sin_0" "sin_0" rfl rfl rfl rfl).1 rfl rfl (callableEq_refl _),
   (C1_register_calls_naming 10 [] c1Calls c1Ntf c1Ctn rfl 0 1 callX callY sinF32 sinI32
     "sin_0" "sin_1" rfl rfl rfl rfl).2 (by decide)⟩

/-- The empty subkernel named `sub`. -/
def subKern : Kernel := ⟨"sub", [], [], []⟩

/-- A fully-specialized callable wrapping `subKern`. -/
def subCallable : Callable :=
  ⟨"sub", some subKern, some [(ArgId.pos 0, some NpDtype.float32)], none⟩

/-- `subCallable` with its subkernel renamed, as registration stores it. -/
def subRenamed (n : String) : Callable :=
  ⟨"sub", some ⟨n, [], [], []⟩, some [(ArgId.pos 0, some NpDtype.float32)], none⟩

/-- Two distinct call sites to `sub`. -/
def callSubA : PCall := ⟨"sub", [PExpr.var "a"]⟩

/-- See `callSubA`. -/
def callSubB : PCall := ⟨"sub", [PExpr.var "b"]⟩

/-- C1 counterexample: two call sites resolving to the *identical*
subkernel-carrying Callable receive distinct names `sub_0` and `sub_1`.
Registration stores the callable with its subkernel renamed to the assigned
name (source lines 689-695), so the second, structurally-equal callable no
longer matches any key of `scoped_functions_to_names` and a fresh name is
synthesized — refuting the claim's unrestricted dedup guarantee. -/
theorem C1_dedup_counterexample :
    registerCalls 10 [] [(callSubA, subCallable), (callSubB, subCallable)]
      = .ok ([("sub_0", subRenamed "sub_0"), ("sub_1", subRenamed "sub_1")],
             [(callSubA, "sub_0"), (callSubB, "sub_1")]) ∧
    callableEq subCallable subCallable = true ∧
    ("sub_0" : String) ≠ "sub_1" :=
  ⟨rfl, callableEq_refl _, by decide⟩

/-! ## C2: seeding of the canonical map -/

/-- C2 (amended): the canonical callable-to-name map starts empty rather
than seeded from the registry, so no assigned name is ever a registry name:
even a call site whose Callable is structurally equal to a registry entry
receives a freshly synthesized name (the registry serves only as the
taken-name set for collision avoidance). -/
theorem C2_register_calls_no_registry_reuse :
    ∀ (fuel : Nat) (reg : List (String × Callable)) (calls : List (PCall × Callable))
      (ntf : List (String × Callable)) (ctn : List (PCall × String)),
    registerCalls fuel reg calls = .ok (ntf, ctn) →
    ∀ p ∈ ctn, p.2 ∉ dkeys reg := by
  intro fuel reg calls ntf ctn h
  exact registerCalls_assigned_fresh h

/-- A registry already holding `sin_0` bound to `sinF32`. -/
def c2Registry : List (String × Callable) := [("sin_0", sinF32)]

/-- C2 counterexample: the call site resolves to `sinF32`, structurally
equal (indeed identical) to the registry entry under the name `sin_0`; the
pass does not reuse `sin_0` but synthesizes `sin_1`. -/
theorem C2_seeding_counterexample :
    registerCalls 10 c2Registry [(callX, sinF32)]
      = .ok ([("sin_0", sinF32), ("sin_1", sinF32)], [(callX, "sin_1")]) ∧
    callableEq sinF32 sinF32 = true ∧
    ("sin_1" : String) ≠ "sin_0" :=
  ⟨rfl, callableEq_refl _, by decide⟩

/-- Witness for C2 (amended): in the concrete seeded-registry run, the
assigned name `sin_1` is not a registry name. -/
theorem C2_register_calls_no_registry_reuse_witness :
    registerCalls 10 c2Registry [(callX, sinF32)]
      = .ok ([("sin_0", sinF32), ("sin_1", sinF32)], [(callX, "sin_1")]) ∧
    ("sin_1" : String) ∉ dkeys c2Registry :=
  ⟨rfl,
   C2_register_calls_no_registry_reuse 10 c2Registry [(callX, sinF32)]
     [("sin_0", sinF32), ("sin_1", sinF32)] [(callX, "sin_1")] rfl
     (callX, "sin_1") (List.mem_singleton.mpr rfl)⟩

/-! ## C6: the next-indexed-name rule and registry freshness -/

/-- C6: the spec's three equations for `next_indexed_name`; the naming
loop's result is never a taken name; and every name the pass assigns to a
call site is absent from the pre-existing registry (the loop tests
candidates against `scoped_names_to_functions`, which starts as a copy of
the registry and only grows). -/
theorem C6_next_indexed_name_rule :
    next_indexed_name "foo" = .ok "foo_0" ∧
    next_indexed_name "foo_3" = .ok "foo_4" ∧
    next_indexed_name "foo_" = .ok "foo_0" ∧
    (∀ (fuel : Nat) (taken : List String) (cand n : String),
      uniqLoop fuel taken cand = .ok n → n ∉ taken) ∧
    (∀ (fuel : Nat) (reg : List (String × Callable)) (calls : List (PCall × Callable))
      (ntf : List (String × Callable)) (ctn : List (PCall × String)),
      registerCalls fuel reg calls = .ok (ntf, ctn) → ∀ p ∈ ctn, p.2 ∉ dkeys reg) :=
  ⟨rfl, rfl, rfl, uniqLoop_fresh,
   fun _ _ _ _ _ h => registerCalls_assigned_fresh h⟩

/-- Witness for C6: a taken candidate advances to a fresh one
(`foo_0 ↦ foo_1`), which the theorem certifies to be outside the taken set;
and in the seeded-registry run the assigned name avoids the registry. -/
theorem C6_next_indexed_name_rule_witness :
    uniqLoop 3 ["foo_0"] "foo_0" = .ok "foo_1" ∧
    ("foo_1" : String) ∉ ["foo_0"] ∧
    ("sin_1" : String) ∉ dkeys c2Registry :=
  ⟨rfl,
   C6_next_indexed_name_rule.2.2.2.1 3 ["foo_0"] "foo_0" "foo_1" rfl,
   C6_next_indexed_name_rule.2.2.2.2 10 c2Registry [(callX, sinF32)]
     [("sin_0", sinF32), ("sin_1", sinF32)] [(callX, "sin_1")] rfl
     (callX, "sin_1") (List.mem_singleton.mpr rfl)⟩

end LoopyFI
